import Mathlib

/-!
Verification development for the SafeRoute AI core: the retrying request
executor (`withRetry`), the staged orchestrator (`init` in `App.tsx` and
`fetchEnvironmentAnalysis` in the vanilla variant), the view reconciler
(`MapComponent`'s effect body and the vanilla `updateMap`), and the chat
session adapter (`handleSendMessage`).

The TypeScript/JavaScript sources are embedded shallowly: asynchronous
service calls become explicit outcome parameters (`Except`), mutable refs
and the Leaflet layer set become explicit state records, and JS numbers
become rationals.
-/

namespace SafeRoute

/-! ## String utilities (JS `String.prototype.includes` / `toLowerCase`) -/

/-- Sublist containment on character lists: `containsSub pat s` is true when
`pat` occurs contiguously inside `s`. -/
def containsSub (pat : List Char) : List Char → Bool
  | [] => pat.isEmpty
  | c :: t => pat.isPrefixOf (c :: t) || containsSub pat t

/-- JS `s.includes(pat)`. -/
def strIncludes (s pat : String) : Bool :=
  containsSub pat.toList s.toList

/-- JS `s.toLowerCase()` (ASCII, which covers every message tested). -/
def strToLower (s : String) : String :=
  String.mk (s.toList.map Char.toLower)

/-- Rate-limit classification from `withRetry` (both variants):
`error.message.toLowerCase()` contains `429`, `quota`, or `exhausted`. -/
def isRateLimitMsg (m : String) : Bool :=
  let l := strToLower m
  strIncludes l "429" || strIncludes l "quota" || strIncludes l "exhausted"

/-- The `429`-only check used by the `catch` in `App.tsx`'s `init` and in
`handleSendMessage` (`err?.message?.includes('429')`, case sensitive). -/
def catchIs429 (m : String) : Bool :=
  strIncludes m "429"

/-! ## Retrying request executor (`withRetry`)

The wrapped operation is modelled as a function `fn : Nat → Except String α`
giving the outcome of each successive attempt (attempt numbering is 0-based),
and `Math.random() * 1000` as a jitter sequence `jit : Nat → ℚ`.  The trace
records the result, the total number of attempts, and the list of backoff
delays actually waited (in milliseconds, `delay + jitter`). -/

/-- Outcome of a `withRetry` run: final result, number of calls to the
wrapped operation, and the backoff delays waited between attempts. -/
structure RetryTrace (α : Type) where
  result : Except String α
  attempts : Nat
  waits : List ℚ
  deriving Repr

/-- Shallow embedding of `withRetry` from `services/geminiService.ts`
(`part_001`): try `fn`; on a rate-limit failure with remaining budget wait
`delay + jitter` and recurse with the budget decremented and the delay
doubled; otherwise rethrow.  The vanilla variant (`part_000`) is the same
function with the jitter sequence constantly `0` and default budget 3. -/
def withRetry (fn : Nat → Except String α) (jit : Nat → ℚ) :
    Nat → Nat → ℚ → RetryTrace α
  | i, 0, _ =>
    match fn i with
    | .ok v => ⟨.ok v, 1, []⟩
    | .error e => ⟨.error e, 1, []⟩
  | i, r + 1, delay =>
    match fn i with
    | .ok v => ⟨.ok v, 1, []⟩
    | .error e =>
      if isRateLimitMsg e then
        let t := withRetry fn jit (i + 1) r (delay * 2)
        ⟨t.result, t.attempts + 1, (delay + jit i) :: t.waits⟩
      else ⟨.error e, 1, []⟩

/-- An attempt outcome counts as rate-limited when it is an error whose
message carries the rate-limit signature. -/
def isRateLimitOutcome : Except String α → Bool
  | .error e => isRateLimitMsg e
  | .ok _ => false

/-! ## Stage response parsing (`geminiService.ts`)

`JSON.parse` of the untrusted response text is modelled by an
`Option`-valued parsed shape: `some` for a response parseable as the
expected shape, `none` for a malformed one. -/

/-- SafetyScore entity from `types.ts`. -/
structure SafetyScore where
  total : ℚ
  lighting : ℚ
  safetyHistory : ℚ
  crowdActivity : ℚ
  description : String
  deriving DecidableEq, Repr

/-- Intensity tier of a threat zone (`types.ts`). -/
inductive Intensity where
  | High | Medium | Low
  deriving DecidableEq, Repr

/-- ThreatZone entity from `types.ts`. -/
structure ThreatZone where
  id : String
  lat : ℚ
  lng : ℚ
  radius : ℚ
  intensity : Intensity
  reason : String
  deriving DecidableEq, Repr

/-- Coordinate pair `[lat, lng]`. -/
structure Coord where
  lat : ℚ
  lng : ℚ
  deriving DecidableEq, Repr

/-- RouteData entity from `types.ts`. -/
structure RouteData where
  points : List Coord
  distance : String
  duration : String
  safetyRating : String
  deriving DecidableEq, Repr

/-- RiskPoint entity from `types.ts`. -/
structure RiskPoint where
  time : String
  score : ℚ
  deriving DecidableEq, Repr

/-- The fixed fallback SafetyScore substituted by `analyzeRouteSafety` when
`JSON.parse` on the response text fails. -/
def fallbackScore : SafetyScore :=
  ⟨82, 85, 90, 75,
   "Standard safe urban zone with consistent lighting and moderate traffic."⟩

/-- Parsing step of the score stage (`analyzeRouteSafety`): the parsed
response on success, the fixed fallback when the text is unparseable. -/
def parseScoreStage : Option SafetyScore → SafetyScore
  | some s => s
  | none => fallbackScore

/-- Parsing step of the route stage (`generateSafeRoute`): no fallback, a
parse failure is thrown to the caller. -/
def parseRouteStage : Option RouteData → Except String RouteData
  | some r => .ok r
  | none => .error "SyntaxError: JSON parse"

/-- Parsing step of the zones stage (`getThreatZones`): no fallback. -/
def parseZonesStage : Option (List ThreatZone) → Except String (List ThreatZone)
  | some z => .ok z
  | none => .error "SyntaxError: JSON parse"

/-- Parsing step of the trend stage (`getRiskTrend`): no fallback. -/
def parseTrendStage : Option (List RiskPoint) → Except String (List RiskPoint)
  | some t => .ok t
  | none => .error "SyntaxError: JSON parse"

/-- All four numeric fields of a SafetyScore lie in `[0, 100]`. -/
def scoreInRange (s : SafetyScore) : Prop :=
  0 ≤ s.total ∧ s.total ≤ 100 ∧
  0 ≤ s.lighting ∧ s.lighting ≤ 100 ∧
  0 ≤ s.safetyHistory ∧ s.safetyHistory ≤ 100 ∧
  0 ≤ s.crowdActivity ∧ s.crowdActivity ≤ 100

instance (s : SafetyScore) : Decidable (scoreInRange s) := by
  unfold scoreInRange; infer_instance

/-! ## Executor lemmas -/

/-- Unfolding: a successful attempt returns at once. -/
theorem withRetry_ok (fn : Nat → Except String α) (jit : Nat → ℚ)
    (i : Nat) (v : α) (h : fn i = .ok v) :
    ∀ (r : Nat) (d : ℚ), withRetry fn jit i r d = ⟨.ok v, 1, []⟩ := by
  intro r d
  cases r <;> simp [withRetry, h]

/-- Unfolding: a non-rate-limit failure is rethrown at once. -/
theorem withRetry_fatal (fn : Nat → Except String α) (jit : Nat → ℚ)
    (i : Nat) (e : String) (h : fn i = .error e)
    (hrl : isRateLimitMsg e = false) :
    ∀ (r : Nat) (d : ℚ), withRetry fn jit i r d = ⟨.error e, 1, []⟩ := by
  intro r d
  cases r <;> simp [withRetry, h, hrl]

/-- Unfolding: a failure with the budget exhausted is rethrown. -/
theorem withRetry_exhausted (fn : Nat → Except String α) (jit : Nat → ℚ)
    (i : Nat) (e : String) (h : fn i = .error e) (d : ℚ) :
    withRetry fn jit i 0 d = ⟨.error e, 1, []⟩ := by
  simp [withRetry, h]

/-- Unfolding: a rate-limited failure with remaining budget waits
`delay + jitter` and retries with the delay doubled. -/
theorem withRetry_rl (fn : Nat → Except String α) (jit : Nat → ℚ)
    (i : Nat) (e : String) (h : fn i = .error e)
    (hrl : isRateLimitMsg e = true) (r : Nat) (d : ℚ) :
    withRetry fn jit i (r + 1) d =
      ⟨(withRetry fn jit (i + 1) r (d * 2)).result,
       (withRetry fn jit (i + 1) r (d * 2)).attempts + 1,
       (d + jit i) :: (withRetry fn jit (i + 1) r (d * 2)).waits⟩ := by
  simp [withRetry, h, hrl]

/-- The executor makes at most `retries + 1` attempts, unconditionally. -/
theorem withRetry_attempts_le (fn : Nat → Except String α) (jit : Nat → ℚ) :
    ∀ (r i : Nat) (d : ℚ), (withRetry fn jit i r d).attempts ≤ r + 1 := by
  intro r
  induction r with
  | zero =>
    intro i d
    cases h : fn i with
    | ok v => rw [withRetry_ok fn jit i v h]
    | error e => rw [withRetry_exhausted fn jit i e h]
  | succ r ih =>
    intro i d
    cases h : fn i with
    | ok v =>
      rw [withRetry_ok fn jit i v h]
      show 1 ≤ r + 1 + 1
      omega
    | error e =>
      cases hrl : isRateLimitMsg e with
      | false =>
        rw [withRetry_fatal fn jit i e h hrl]
        show 1 ≤ r + 1 + 1
        omega
      | true =>
        rw [withRetry_rl fn jit i e h hrl]
        show (withRetry fn jit (i + 1) r (d * 2)).attempts + 1 ≤ r + 1 + 1
        have := ih (i + 1) (d * 2)
        omega

/-- Characterization of a run when the first `N` attempts (from index `i`)
rate-limit and attempt `i + N` does not: the executor makes
`min retries N + 1` attempts and its result is the outcome of attempt
`i + min retries N`, propagated unchanged. -/
theorem withRetry_run (fn : Nat → Except String α) (jit : Nat → ℚ) :
    ∀ (r i : Nat) (d : ℚ) (N : Nat),
      (∀ k, k < N → isRateLimitOutcome (fn (i + k)) = true) →
      isRateLimitOutcome (fn (i + N)) = false →
      (withRetry fn jit i r d).attempts = min r N + 1 ∧
      (withRetry fn jit i r d).result = fn (i + min r N) := by
  intro r
  induction r with
  | zero =>
    intro i d N _ _
    cases h : fn i with
    | ok v => rw [withRetry_ok fn jit i v h]; simp [h, Nat.zero_min]
    | error e => rw [withRetry_exhausted fn jit i e h]; simp [h, Nat.zero_min]
  | succ r ih =>
    intro i d N h1 h2
    cases N with
    | zero =>
      simp only [Nat.add_zero] at h2
      cases h : fn i with
      | ok v => rw [withRetry_ok fn jit i v h]; simp [h, Nat.min_zero]
      | error e =>
        rw [h] at h2
        simp only [isRateLimitOutcome] at h2
        rw [withRetry_fatal fn jit i e h h2]
        simp [h, Nat.min_zero]
    | succ M =>
      have h0 := h1 0 (Nat.succ_pos M)
      rw [Nat.add_zero] at h0
      cases h : fn i with
      | ok v => rw [h] at h0; simp [isRateLimitOutcome] at h0
      | error e =>
        rw [h] at h0
        simp only [isRateLimitOutcome] at h0
        have h1' : ∀ k, k < M → isRateLimitOutcome (fn (i + 1 + k)) = true := by
          intro k hk
          have := h1 (k + 1) (by omega)
          have harg : i + (k + 1) = i + 1 + k := by omega
          rwa [harg] at this
        have h2' : isRateLimitOutcome (fn (i + 1 + M)) = false := by
          have harg : i + (M + 1) = i + 1 + M := by omega
          rwa [harg] at h2
        obtain ⟨ha, hr⟩ := ih (i + 1) (d * 2) M h1' h2'
        rw [withRetry_rl fn jit i e h h0 r d]
        constructor
        · simp only
          rw [ha, Nat.succ_min_succ]
        · simp only
          rw [hr, Nat.succ_min_succ]
          have harg : i + 1 + min r M = i + (min r M + 1) := by omega
          rw [harg]

/-- Shape of the waited delays: the `k`-th wait (0-based) of a run started
at index `i` with initial delay `d` equals `d * 2 ^ k` plus the `k`-th
jitter draw. -/
theorem withRetry_waits (fn : Nat → Except String α) (jit : Nat → ℚ) :
    ∀ (r i : Nat) (d : ℚ) (k : Nat),
      k < (withRetry fn jit i r d).waits.length →
      (withRetry fn jit i r d).waits[k]? = some (d * 2 ^ k + jit (i + k)) := by
  intro r
  induction r with
  | zero =>
    intro i d k hk
    cases h : fn i with
    | ok v => rw [withRetry_ok fn jit i v h] at hk; simp at hk
    | error e => rw [withRetry_exhausted fn jit i e h] at hk; simp at hk
  | succ r ih =>
    intro i d k hk
    cases h : fn i with
    | ok v => rw [withRetry_ok fn jit i v h] at hk; simp at hk
    | error e =>
      cases hrl : isRateLimitMsg e with
      | false => rw [withRetry_fatal fn jit i e h hrl] at hk; simp at hk
      | true =>
        rw [withRetry_rl fn jit i e h hrl r d] at hk ⊢
        simp only at hk ⊢
        cases k with
        | zero => simp
        | succ k =>
          simp only [List.getElem?_cons_succ]
          rw [ih (i + 1) (d * 2) k (by simpa using hk)]
          have harg : i + 1 + k = i + (k + 1) := by omega
          rw [harg]
          ring_nf

/-- C3: for every wrapped operation and retry budget, the Executor makes at
most `retries + 1` total attempts; it retries exactly
`min retries N` times where `N` counts the leading rate-limited attempts
(so the attempt total is `min retries N + 1`); `N = 0` — in particular a
non-rate-limit failure on the first attempt — gives exactly one attempt;
and the final outcome (a non-rate-limit failure, or a rate-limit failure
with the budget exhausted) is propagated to the caller unchanged as the
outcome of the last attempt performed. -/
theorem C3_executor_retry_discipline (fn : Nat → Except String α)
    (jit : Nat → ℚ) (retries : Nat) (d : ℚ) (N : Nat)
    (h1 : ∀ k, k < N → isRateLimitOutcome (fn k) = true)
    (h2 : isRateLimitOutcome (fn N) = false) :
    (withRetry fn jit 0 retries d).attempts ≤ retries + 1 ∧
    (withRetry fn jit 0 retries d).attempts = min retries N + 1 ∧
    (N = 0 → (withRetry fn jit 0 retries d).attempts = 1) ∧
    (withRetry fn jit 0 retries d).result = fn (min retries N) := by
  have h1' : ∀ k, k < N → isRateLimitOutcome (fn (0 + k)) = true := by
    intro k hk; rw [Nat.zero_add]; exact h1 k hk
  have h2' : isRateLimitOutcome (fn (0 + N)) = false := by
    rw [Nat.zero_add]; exact h2
  obtain ⟨ha, hr⟩ := withRetry_run fn jit retries 0 d N h1' h2'
  refine ⟨withRetry_attempts_le fn jit retries 0 d, ha, ?_, ?_⟩
  · intro hN0
    rw [ha, hN0, Nat.min_zero]
  · rw [hr, Nat.zero_add]

/-- Concrete operation for the C3 run: quota errors on attempts 0 and 1,
success on attempt 2. -/
def fnW3 : Nat → Except String Nat :=
  fun i => if i < 2 then Except.error "Quota exhausted" else Except.ok 7

/-- Concrete run for C3: the operation rate-limits on attempts 0 and 1 and
succeeds on attempt 2, with a budget of 4 retries — three attempts total,
two retries, result the success value. -/
theorem C3_executor_retry_discipline_witness :
    (withRetry fnW3 (fun _ => 0) 0 4 2000).attempts = 3 ∧
    (withRetry fnW3 (fun _ => 0) 0 4 2000).result = Except.ok 7 := by
  have h := C3_executor_retry_discipline fnW3 (fun _ => 0) 4 2000 2
    (by decide) (by decide)
  constructor
  · rw [h.2.1]
    decide
  · rw [h.2.2.2]
    norm_num [fnW3]

/-- C4: in a run with initial delay at least 1000 ms (both call sites use
the default 2000 ms) and every jitter draw in `[0, 1000)`, the delay waited
after attempt `k+1` equals `initialDelay * 2 ^ k` plus a jitter component
of at most one second, and the waited delays form a strictly increasing
sequence across the retries of the run. -/
theorem C4_executor_backoff (fn : Nat → Except String α) (jit : Nat → ℚ)
    (retries : Nat) (d : ℚ)
    (hj : ∀ k, 0 ≤ jit k ∧ jit k < 1000) (hd : (1000 : ℚ) ≤ d) :
    (∀ k, k < (withRetry fn jit 0 retries d).waits.length →
        (withRetry fn jit 0 retries d).waits[k]? =
          some (d * 2 ^ k + jit k) ∧ jit k ≤ 1000) ∧
    (withRetry fn jit 0 retries d).waits.Chain' (· < ·) := by
  have key : ∀ k, k < (withRetry fn jit 0 retries d).waits.length →
      (withRetry fn jit 0 retries d).waits[k]? = some (d * 2 ^ k + jit k) := by
    intro k hk
    have := withRetry_waits fn jit retries 0 d k hk
    rwa [Nat.zero_add] at this
  constructor
  · intro k hk
    exact ⟨key k hk, le_of_lt (hj k).2⟩
  · rw [List.chain'_iff_get]
    intro k hlt
    have hk1 : k < (withRetry fn jit 0 retries d).waits.length := by omega
    have hk2 : k + 1 < (withRetry fn jit 0 retries d).waits.length := by omega
    have e1 := key k hk1
    have e2 := key (k + 1) hk2
    rw [List.getElem?_eq_getElem hk1] at e1
    rw [List.getElem?_eq_getElem hk2] at e2
    have e1' : (withRetry fn jit 0 retries d).waits.get ⟨k, hk1⟩ =
        d * 2 ^ k + jit k := by
      simpa using e1
    have e2' : (withRetry fn jit 0 retries d).waits.get ⟨k + 1, hk2⟩ =
        d * 2 ^ (k + 1) + jit (k + 1) := by
      simpa using e2
    rw [e1', e2']
    have hpow : (1 : ℚ) ≤ 2 ^ k := one_le_pow₀ (by norm_num)
    have hdpos : (0 : ℚ) ≤ d := le_trans (by norm_num) hd
    have hdk : d ≤ d * 2 ^ k := le_mul_of_one_le_right hdpos hpow
    have hsucc : d * 2 ^ (k + 1) = d * 2 ^ k + d * 2 ^ k := by ring
    have hjk := (hj k).2
    have hjk1 := (hj (k + 1)).1
    rw [hsucc]
    linarith

/-- Concrete operation for the C4 run: 429 errors on attempts 0 and 1,
success on attempt 2. -/
def fnW4 : Nat → Except String Nat :=
  fun i => if i < 2 then Except.error "429 rate limited" else Except.ok 9

/-- Constant jitter draw of 500 ms for the C4 run. -/
def jitW4 : Nat → ℚ := fun _ => 500

/-- Concrete run for C4: two rate-limited attempts with constant jitter 500
and the default initial delay 2000 — the waits are `[2500, 4500]`, matching
`2000 * 2 ^ k + 500` and strictly increasing. -/
theorem C4_executor_backoff_witness :
    (withRetry fnW4 jitW4 0 4 2000).waits = [2500, 4500] ∧
    (withRetry fnW4 jitW4 0 4 2000).waits.Chain' (· < ·) := by
  have h := C4_executor_backoff fnW4 jitW4 4 2000
    (fun _ => by norm_num [jitW4]) (by norm_num)
  refine ⟨?_, h.2⟩
  have hrl : isRateLimitMsg "429 rate limited" = true := by decide
  have E0 : withRetry fnW4 jitW4 0 4 2000 =
      withRetry fnW4 jitW4 0 (3 + 1) 2000 := rfl
  rw [E0, withRetry_rl fnW4 jitW4 0 "429 rate limited" rfl hrl 3 2000]
  have E1 : (2000 : ℚ) * 2 = 4000 := by norm_num
  have E2 : (3 : Nat) = 2 + 1 := rfl
  rw [E1, E2, withRetry_rl fnW4 jitW4 1 "429 rate limited" rfl hrl 2 4000]
  rw [withRetry_ok fnW4 jitW4 2 9 rfl]
  norm_num [jitW4]

/-! ## Claim C5: score-stage parsing and fallback -/

/-- C5: every response parseable as the expected score shape (per the data
model, all four numeric fields in `[0, 100]`) yields that SafetyScore with
all four fields in `[0, 100]`; every malformed response yields the fixed
fallback, unchanged and idempotent (re-parsing the fallback returns it, and
the fallback itself is in range); and only the score stage substitutes a
fallback — the route, zones, and trend stages turn a parse failure into a
thrown error instead. -/
theorem C5_score_parse_fallback (s : SafetyScore) (h : scoreInRange s) :
    parseScoreStage (some s) = s ∧
    scoreInRange (parseScoreStage (some s)) ∧
    parseScoreStage none = fallbackScore ∧
    parseScoreStage (some fallbackScore) = fallbackScore ∧
    scoreInRange fallbackScore ∧
    parseRouteStage none = .error "SyntaxError: JSON parse" ∧
    parseZonesStage none = .error "SyntaxError: JSON parse" ∧
    parseTrendStage none = .error "SyntaxError: JSON parse" := by
  refine ⟨rfl, ?_, rfl, rfl, ?_, rfl, rfl, rfl⟩
  · exact h
  · unfold scoreInRange fallbackScore
    norm_num

/-- Concrete instance for C5: a well-formed score response with all four
fields in range parses to itself, and the malformed-response path returns
the fallback. -/
theorem C5_score_parse_fallback_witness :
    scoreInRange ⟨55, 60, 70, 80, "calm, well lit"⟩ ∧
    parseScoreStage (some ⟨55, 60, 70, 80, "calm, well lit"⟩) =
      ⟨55, 60, 70, 80, "calm, well lit"⟩ ∧
    parseScoreStage none = fallbackScore := by
  have hin : scoreInRange ⟨55, 60, 70, 80, "calm, well lit"⟩ := by
    unfold scoreInRange
    norm_num
  have h := C5_score_parse_fallback ⟨55, 60, 70, 80, "calm, well lit"⟩ hin
  exact ⟨hin, h.1, h.2.2.1⟩

/-! ## Claim C1: the staged orchestrator (`init` in `App.tsx`)

The four service calls become an `InitOutcomes` record of settled results
(each call is already wrapped by `withRetry`, so an `error` here is a
failure that survived the retry policy).  The React state setters become
fields of `AppState`; the `called…` flags instrument which stage requests
were actually issued during the run. -/

/-- Application state of `App.tsx` (the slice the orchestrator touches),
plus per-run instrumentation flags recording which stage calls were
issued. -/
structure AppState where
  currentLocation : Coord
  destinationCoord : Coord
  safetyScore : Option SafetyScore
  threatZones : List ThreatZone
  riskTrend : List RiskPoint
  safeRoute : Option RouteData
  isLoading : Bool
  isRateLimited : Bool
  calledScore : Bool
  calledZones : Bool
  calledRoute : Bool
  calledTrend : Bool
  deriving Repr

/-- Initial `useState` values of `App.tsx`. -/
def initialAppState : AppState :=
  { currentLocation := ⟨40.7484, -74.0010⟩
    destinationCoord := ⟨40.7580, -73.9855⟩
    safetyScore := none
    threatZones := []
    riskTrend := []
    safeRoute := none
    isLoading := false
    isRateLimited := false
    calledScore := false
    calledZones := false
    calledRoute := false
    calledTrend := false }

/-- Settled outcomes of the four staged service calls of one `init` run. -/
structure InitOutcomes where
  score : Except String SafetyScore
  zones : Except String (List ThreatZone)
  route : Except String RouteData
  trend : Except String (List RiskPoint)

/-- The `catch` block of `init`: flag rate limiting when the error message
contains `429`, leave everything else untouched. -/
def initCatch (s : AppState) (e : String) : AppState :=
  if catchIs429 e then { s with isRateLimited := true } else s

/-- Shallow embedding of `init` from `App.tsx`: all four stages run inside
one `try`; the first failing stage jumps to the shared `catch`, and the
`finally` clears the loading flag. -/
def init (o : InitOutcomes) (s0 : AppState) : AppState :=
  let s := { s0 with isLoading := true, isRateLimited := false,
                     calledScore := true, calledZones := false,
                     calledRoute := false, calledTrend := false }
  let final :=
    match o.score with
    | .error e => initCatch s e
    | .ok sc =>
      let s := { s with safetyScore := some sc, calledZones := true }
      match o.zones with
      | .error e => initCatch s e
      | .ok z =>
        let s := { s with threatZones := z, calledRoute := true }
        match o.route with
        | .error e => initCatch s e
        | .ok r =>
          let s := { s with safeRoute := some r, calledTrend := true }
          match o.trend with
          | .error e => initCatch s e
          | .ok t => { s with riskTrend := t }
  { final with isLoading := false }

/-- C1 counterexample: stages 1 and 2 succeed and stage 3 (route) fails
permanently with a non-rate-limit error.  The route field does remain null
and the loading flag does clear, but stage 4 is never called — the claim
that the orchestrator proceeds past the failed stage is false: all four
stages share a single `try`/`catch`, so the failure aborts the rest of the
sequence. -/
theorem C1_route_failure_counterexample :
    (init ⟨.ok fallbackScore, .ok [], .error "Network error", .ok []⟩
        initialAppState).calledTrend = false ∧
    (init ⟨.ok fallbackScore, .ok [], .error "Network error", .ok []⟩
        initialAppState).safeRoute = none ∧
    (init ⟨.ok fallbackScore, .ok [], .error "Network error", .ok []⟩
        initialAppState).isLoading = false ∧
    (init ⟨.ok fallbackScore, .ok [], .error "Network error", .ok []⟩
        initialAppState).riskTrend = [] := by
  refine ⟨rfl, rfl, ?_, rfl⟩
  rfl

/-- C1 amended: when stage 3 (route) fails permanently after stages 1 and 2
succeeded, the route field is left unchanged (null when starting from the
initial state), the loading flag still clears to false at the end of the
run, but stage 4 is NOT executed and the trend field is left unchanged —
the orchestrator aborts the remaining stages rather than proceeding. -/
theorem C1_route_failure_aborts_trend (o : InitOutcomes) (s0 : AppState)
    (sc : SafetyScore) (z : List ThreatZone) (e : String)
    (hs : o.score = .ok sc) (hz : o.zones = .ok z) (hr : o.route = .error e) :
    (init o s0).safeRoute = s0.safeRoute ∧
    (init o s0).calledTrend = false ∧
    (init o s0).isLoading = false ∧
    (init o s0).riskTrend = s0.riskTrend := by
  unfold init initCatch
  rw [hs, hz, hr]
  by_cases h429 : catchIs429 e = true
  · simp [h429]
  · simp [h429]

/-- Concrete instance for C1 amended: direct evaluation at the
counterexample outcomes. -/
theorem C1_route_failure_aborts_trend_witness :
    (init ⟨.ok fallbackScore, .ok [], .error "Network down", .ok []⟩
        initialAppState).safeRoute = none ∧
    (init ⟨.ok fallbackScore, .ok [], .error "Network down", .ok []⟩
        initialAppState).calledTrend = false ∧
    (init ⟨.ok fallbackScore, .ok [], .error "Network down", .ok []⟩
        initialAppState).isLoading = false := by
  have h := C1_route_failure_aborts_trend
    ⟨.ok fallbackScore, .ok [], .error "Network down", .ok []⟩
    initialAppState fallbackScore [] "Network down" rfl rfl rfl
  exact ⟨h.1, h.2.1, h.2.2.1⟩

/-! ## Claim C9: the chat session adapter (`handleSendMessage`)

The conversational session is modelled by a numeric handle; the transcript
and the counters of sessions created and inference invocations made are
explicit.  Each turn carries the settled outcome of the single
`sendMessage` call it makes. -/

/-- Speaker of a transcript entry (`role` in `App.tsx`). -/
inductive Speaker where
  | user | model
  deriving DecidableEq, Repr

/-- One transcript entry. -/
structure ChatMsg where
  speaker : Speaker
  text : String
  deriving DecidableEq, Repr

/-- Chat-adapter state: the lazily created session handle, counters of
sessions created and inference calls made, and the transcript. -/
structure ChatSt where
  session : Option Nat
  sessionsCreated : Nat
  serviceCalls : Nat
  messages : List ChatMsg
  deriving DecidableEq, Repr

/-- Chat state before the first turn (`chatInstance.current = null`, empty
transcript). -/
def initialChatSt : ChatSt := ⟨none, 0, 0, []⟩

/-- JS `s.trim()`. -/
def strTrim (s : String) : String :=
  String.mk
    (((s.toList.dropWhile Char.isWhitespace).reverse.dropWhile
        Char.isWhitespace).reverse)

/-- The local fallback of `handleSendMessage`: one canned message for a
`429` failure, another for every other failure — a deterministic function
of the error, with no further service call. -/
def chatFallback (e : String) : String :=
  if catchIs429 e then "Service busy. I\x27m still watching your route locally."
  else "Signal weak, but SOS links are active."

/-- Shallow embedding of `handleSendMessage` from `App.tsx`: ignore blank
input; lazily create the session on first use; append the user turn; make
exactly one inference call; append the response on success or the local
fallback on failure, with no retry. -/
def handleSendMessage (input : String) (svc : Except String String)
    (s : ChatSt) : ChatSt :=
  if strTrim input = "" then s
  else
    let s :=
      match s.session with
      | some _ => s
      | none => { s with session := some s.sessionsCreated,
                         sessionsCreated := s.sessionsCreated + 1 }
    let s := { s with messages := s.messages ++ [ChatMsg.mk .user input] }
    let s := { s with serviceCalls := s.serviceCalls + 1 }
    match svc with
    | .ok resp =>
      { s with messages := s.messages ++ [ChatMsg.mk .model resp] }
    | .error e =>
      { s with messages := s.messages ++ [ChatMsg.mk .model (chatFallback e)] }

/-- The reply appended for one turn: the service response on success, the
deterministic local fallback on failure. -/
def chatReply : Except String String → String
  | .ok r => r
  | .error e => chatFallback e

/-- Expected transcript of a sequence of turns: each turn contributes the
user entry followed by the reply entry. -/
def chatTranscript : List (String × Except String String) → List ChatMsg
  | [] => []
  | t :: rest => ⟨.user, t.1⟩ :: ⟨.model, chatReply t.2⟩ :: chatTranscript rest

/-- Folding the adapter over turns from a state that already has a session:
the session handle and creation count never change, each turn makes exactly
one service call, and the transcript grows by exactly the expected two
entries per turn. -/
theorem handleSendMessage_fold (id : Nat) :
    ∀ (turns : List (String × Except String String)) (s : ChatSt),
      s.session = some id →
      (∀ t ∈ turns, ¬ strTrim t.1 = "") →
      (turns.foldl (fun s t => handleSendMessage t.1 t.2 s) s).session =
          some id ∧
      (turns.foldl (fun s t => handleSendMessage t.1 t.2 s) s).sessionsCreated
          = s.sessionsCreated ∧
      (turns.foldl (fun s t => handleSendMessage t.1 t.2 s) s).serviceCalls
          = s.serviceCalls + turns.length ∧
      (turns.foldl (fun s t => handleSendMessage t.1 t.2 s) s).messages
          = s.messages ++ chatTranscript turns := by
  intro turns
  induction turns with
  | nil =>
    intro s hs _
    simp [chatTranscript, hs]
  | cons t rest ih =>
    intro s hs hne
    have hnet : ¬ strTrim t.1 = "" := hne t (List.mem_cons_self t rest)
    have hstep : handleSendMessage t.1 t.2 s =
        { s with serviceCalls := s.serviceCalls + 1,
                 messages := s.messages ++
                   [ChatMsg.mk .user t.1, ChatMsg.mk .model (chatReply t.2)] }
        := by
      unfold handleSendMessage
      rw [if_neg hnet, hs]
      cases h2 : t.2 <;> simp [chatReply, h2] <;> exact hs
    have hrest : ∀ u ∈ rest, ¬ strTrim u.1 = "" := fun u hu =>
      hne u (List.mem_cons_of_mem t hu)
    obtain ⟨a, b, c, d⟩ := ih (handleSendMessage t.1 t.2 s)
      (by rw [hstep]; exact hs) hrest
    rw [List.foldl_cons] at *
    refine ⟨a, ?_, ?_, ?_⟩
    · rw [b, hstep]
    · rw [c, hstep]
      simp [List.length_cons]
      omega
    · rw [d, hstep]
      simp [chatTranscript]

/-- C9: starting from the initial chat state, over any nonempty sequence of
non-blank turns the adapter creates exactly one session (lazily, on the
first turn) and every later turn reuses that same handle; it makes exactly
one inference call per turn (no retry, and no second call on failure); and
the transcript is exactly, per turn, the user entry followed by the
assistant response on success or the deterministic local fallback on
failure. -/
theorem C9_chat_session_adapter
    (turns : List (String × Except String String))
    (hne : ∀ t ∈ turns, ¬ strTrim t.1 = "") (hturns : turns ≠ []) :
    (turns.foldl (fun s t => handleSendMessage t.1 t.2 s)
        initialChatSt).sessionsCreated = 1 ∧
    (turns.foldl (fun s t => handleSendMessage t.1 t.2 s)
        initialChatSt).session = some 0 ∧
    (turns.foldl (fun s t => handleSendMessage t.1 t.2 s)
        initialChatSt).serviceCalls = turns.length ∧
    (turns.foldl (fun s t => handleSendMessage t.1 t.2 s)
        initialChatSt).messages = chatTranscript turns := by
  cases turns with
  | nil => exact absurd rfl hturns
  | cons t rest =>
    have hnet : ¬ strTrim t.1 = "" := hne t (List.mem_cons_self t rest)
    have hstep : handleSendMessage t.1 t.2 initialChatSt =
        { session := some 0, sessionsCreated := 1, serviceCalls := 1,
          messages := [ChatMsg.mk .user t.1, ChatMsg.mk .model (chatReply t.2)] }
        := by
      unfold handleSendMessage initialChatSt
      rw [if_neg hnet]
      cases h2 : t.2 <;> simp [chatReply, h2]
    have hrest : ∀ u ∈ rest, ¬ strTrim u.1 = "" := fun u hu =>
      hne u (List.mem_cons_of_mem t hu)
    obtain ⟨a, b, c, d⟩ := handleSendMessage_fold 0 rest
      (handleSendMessage t.1 t.2 initialChatSt) (by rw [hstep]) hrest
    rw [List.foldl_cons]
    refine ⟨?_, a, ?_, ?_⟩
    · rw [b, hstep]
    · rw [c, hstep]
      simp [List.length_cons]
      omega
    · rw [d, hstep]
      simp [chatTranscript]

/-- Concrete instance for C9: two turns, the first succeeding, the second
failing with a 429 — one session, two service calls, and the transcript
with the deterministic busy-fallback for the failed turn. -/
theorem C9_chat_session_adapter_witness :
    ([("Is this route safe", Except.ok "Yes, stay on 8th Ave"),
      ("Thanks", Except.error "429 quota")].foldl
        (fun s t => handleSendMessage t.1 t.2 s)
        initialChatSt).sessionsCreated = 1 ∧
    ([("Is this route safe", Except.ok "Yes, stay on 8th Ave"),
      ("Thanks", Except.error "429 quota")].foldl
        (fun s t => handleSendMessage t.1 t.2 s)
        initialChatSt).serviceCalls = 2 ∧
    ([("Is this route safe", Except.ok "Yes, stay on 8th Ave"),
      ("Thanks", Except.error "429 quota")].foldl
        (fun s t => handleSendMessage t.1 t.2 s)
        initialChatSt).messages =
      [⟨.user, "Is this route safe"⟩, ⟨.model, "Yes, stay on 8th Ave"⟩,
       ⟨.user, "Thanks"⟩,
       ⟨.model, "Service busy. I\x27m still watching your route locally."⟩] := by
  have h := C9_chat_session_adapter
    [("Is this route safe", Except.ok "Yes, stay on 8th Ave"),
     ("Thanks", Except.error "429 quota")]
    (by decide) (by simp)
  refine ⟨h.1, h.2.2.1, ?_⟩
  rw [h.2.2.2]
  decide

/-! ## The Leaflet view and the reconciler (`MapComponent`, `updateMap`)

Leaflet layers are opaque handles owned by the reconciler.  The map is
modelled as an id allocator plus the list of live layers (id, object);
`addTo` appends a freshly allocated id, `removeLayer` deletes by id, and
`setLatLng` moves a marker in place.  The React refs of `MapComponent`
(`userMarkerRef`, `routeLayerRef`, `threatLayersRef`) become a `Refs`
record, and the props the reconciliation effect reads become `Props`. -/

/-- A live Leaflet layer object: the user marker (position and
distress-styled icon flag), the route polyline (points, color, dash
pattern), or a hotspot circle (center, radius, color). -/
inductive LObj where
  | marker (pos : Coord) (distressStyle : Bool)
  | polyline (points : List Coord) (color : String) (dash : String)
  | circle (center : Coord) (radius : ℚ) (color : String)
  deriving DecidableEq, Repr

/-- The Leaflet map: an id allocator and the live layers in insertion
order. -/
structure MapSt where
  nextId : Nat
  layers : List (Nat × LObj)
  deriving DecidableEq, Repr

/-- A map with no layers. -/
def emptyMapSt : MapSt := ⟨0, []⟩

/-- `layer.addTo(map)`: allocate a fresh handle and append the layer. -/
def addLayer (o : LObj) (s : MapSt) : Nat × MapSt :=
  (s.nextId, ⟨s.nextId + 1, s.layers ++ [(s.nextId, o)]⟩)

/-- `map.removeLayer(handle)`: delete the layer with that handle (a no-op
when the handle is stale). -/
def removeLayer (h : Nat) (s : MapSt) : MapSt :=
  ⟨s.nextId, s.layers.filter (fun q => q.1 != h)⟩

/-- Position update applied by `setLatLng`: moves a marker, leaves any
other object unchanged. -/
def updatePos : LObj → Coord → LObj
  | .marker _ st, pos => .marker pos st
  | o, _ => o

/-- `marker.setLatLng(pos)`: move the layer with the given handle in
place — no recreation, no new handle. -/
def setLatLng (h : Nat) (pos : Coord) (s : MapSt) : MapSt :=
  ⟨s.nextId,
   s.layers.map (fun q => if q.1 = h then (q.1, updatePos q.2 pos) else q)⟩

/-- Kind test: is the layer the user marker? -/
def isMarkerB : LObj → Bool
  | .marker _ _ => true
  | _ => false

/-- Kind test: is the layer a polyline? -/
def isPolyB : LObj → Bool
  | .polyline _ _ _ => true
  | _ => false

/-- Kind test: is the layer a circle overlay? -/
def isCircleB : LObj → Bool
  | .circle _ _ _ => true
  | _ => false

/-- Number of live marker layers. -/
def countMarkers (s : MapSt) : Nat :=
  (s.layers.filter (fun q => isMarkerB q.2)).length

/-- Number of live polyline layers. -/
def countPolys (s : MapSt) : Nat :=
  (s.layers.filter (fun q => isPolyB q.2)).length

/-- Number of live circle layers. -/
def countCircles (s : MapSt) : Nat :=
  (s.layers.filter (fun q => isCircleB q.2)).length

/-- The mutable refs of `MapComponent`: marker handle, route-line handle,
and the hotspot overlay handles. -/
structure Refs where
  userMarker : Option Nat
  routeLayer : Option Nat
  threatLayers : List Nat
  deriving DecidableEq, Repr

/-- Refs before any reconciliation. -/
def emptyRefs : Refs := ⟨none, none, []⟩

/-- The props the `MapComponent` reconciliation effect reads. -/
structure Props where
  center : Coord
  destination : Option Coord
  routePoints : List Coord
  threatZones : List ThreatZone
  showThreats : Bool
  isDistress : Bool

/-- Route-line color: `isDistress ? '#ef4444' : '#ff007f'`. -/
def routeColor (isDistress : Bool) : String :=
  if isDistress then "#ef4444" else "#ff007f"

/-- Route-line dash pattern: `isDistress ? '1, 10' : ''`. -/
def routeDash (isDistress : Bool) : String :=
  if isDistress then "1, 10" else ""

/-- Hotspot color by intensity tier in `MapComponent`: High, Medium, and
Low each get their own fixed color. -/
def zoneColor : Intensity → String
  | .High => "#ef4444"
  | .Medium => "#f59e0b"
  | .Low => "#3b82f6"

/-- The circle overlay created for one ThreatZone by `MapComponent`:
centered at the zone coordinate, sized to its radius, colored by tier. -/
def circleOf (z : ThreatZone) : LObj :=
  .circle ⟨z.lat, z.lng⟩ z.radius (zoneColor z.intensity)

/-- The effective route point sequence of `MapComponent`: the supplied
route points if non-empty, else `[center, destination]` if a destination
is set, else nothing. -/
def effPoints (p : Props) : List Coord :=
  if p.routePoints.length > 0 then p.routePoints
  else
    match p.destination with
    | some d => [p.center, d]
    | none => []

/-- Marker block of the reconciliation effect: move the existing marker in
place, or create one whose icon style is chosen from the current distress
flag. -/
def markerStep (p : Props) : Refs × MapSt → Refs × MapSt
  | (r, s) =>
    match r.userMarker with
    | some h => (r, setLatLng h p.center s)
    | none =>
      let a := addLayer (.marker p.center p.isDistress) s
      ({ r with userMarker := some a.1 }, a.2)

/-- Route block of the reconciliation effect: remove the old line handle if
present (the ref is not cleared), then create a new line from the effective
points when they are non-empty. -/
def routeStep (p : Props) : Refs × MapSt → Refs × MapSt
  | (r, s) =>
    let s :=
      match r.routeLayer with
      | some h => removeLayer h s
      | none => s
    let pts := effPoints p
    if pts.length > 0 then
      let a := addLayer
        (.polyline pts (routeColor p.isDistress) (routeDash p.isDistress)) s
      ({ r with routeLayer := some a.1 }, a.2)
    else (r, s)

/-- Remove a batch of handles (`threatLayersRef.current.forEach(...)`). -/
def removeAll (hs : List Nat) (s : MapSt) : MapSt :=
  hs.foldl (fun s h => removeLayer h s) s

/-- Create one circle overlay per zone, pushing each fresh handle. -/
def addCircles (zs : List ThreatZone) : Refs × MapSt → Refs × MapSt
  | (r, s) =>
    zs.foldl
      (fun a z =>
        let c := addLayer (circleOf z) a.2
        ({ a.1 with threatLayers := a.1.threatLayers ++ [c.1] }, c.2))
      (r, s)

/-- Hotspot block of the reconciliation effect: remove every existing
overlay handle, clear the handle list, then recreate one overlay per zone
when `showThreats` is on. -/
def threatStep (p : Props) : Refs × MapSt → Refs × MapSt
  | (r, s) =>
    let s := removeAll r.threatLayers s
    let r := { r with threatLayers := ([] : List Nat) }
    if p.showThreats then addCircles p.threatZones (r, s) else (r, s)

/-- The body of `MapComponent`'s reconciliation effect (lines 46-101 of the
component): marker block, then route block, then hotspot block. -/
def mapComponentUpdate (p : Props) (rs : Refs × MapSt) : Refs × MapSt :=
  threatStep p (routeStep p (markerStep p rs))

/-- The route-line object the reconciliation creates (when the effective
point sequence is non-empty). -/
def polyObjOf (p : Props) : LObj :=
  .polyline (effPoints p) (routeColor p.isDistress) (routeDash p.isDistress)

/-- Expected polyline layers after one reconciliation. -/
def polyPart (p : Props) : List LObj :=
  if (effPoints p).length > 0 then [polyObjOf p] else []

/-- Expected circle layers after one reconciliation. -/
def circlePart (p : Props) : List LObj :=
  if p.showThreats then p.threatZones.map circleOf else []

/-- Expected marker layers after one reconciliation, given the previous
refs and the previous layer objects: the existing marker moved in place
(style untouched), or a freshly created marker styled from the current
distress flag. -/
def markerPartObjs (p : Props) (r : Refs) (objs : List LObj) : List LObj :=
  match r.userMarker with
  | some _ => (objs.filter isMarkerB).map (fun o => updatePos o p.center)
  | none => [LObj.marker p.center p.isDistress]

/-- Well-formedness of a refs/map pair maintained by the reconciler: layer
ids are unique and below the allocator; the marker layers are exactly the
one tracked by `userMarker`; polylines are exactly the layer tracked by
`routeLayer` (whose id, possibly stale, is below the allocator); circle
layers are exactly those tracked by `threatLayers`. -/
def Inv (r : Refs) (s : MapSt) : Prop :=
  (s.layers.map Prod.fst).Nodup ∧
  (∀ q ∈ s.layers, q.1 < s.nextId) ∧
  ((s.layers.filter (fun q => isMarkerB q.2)).map Prod.fst =
    r.userMarker.toList) ∧
  (∀ q ∈ s.layers, isPolyB q.2 = true → r.routeLayer = some q.1) ∧
  (∀ q ∈ s.layers, r.routeLayer = some q.1 → isPolyB q.2 = true) ∧
  (∀ h, r.routeLayer = some h → h < s.nextId) ∧
  ((s.layers.filter (fun q => isCircleB q.2)).map Prod.fst =
    r.threatLayers) ∧
  (∀ q ∈ s.layers, q.1 ∈ r.threatLayers → isCircleB q.2 = true)

/-! ## Reconciler lemmas -/

/-- Moving a layer keeps its marker-ness. -/
theorem updatePos_isMarker (o : LObj) (c : Coord) :
    isMarkerB (updatePos o c) = isMarkerB o := by
  cases o <;> rfl

/-- Moving a layer keeps its polyline-ness. -/
theorem updatePos_isPoly (o : LObj) (c : Coord) :
    isPolyB (updatePos o c) = isPolyB o := by
  cases o <;> rfl

/-- Moving a layer keeps its circle-ness. -/
theorem updatePos_isCircle (o : LObj) (c : Coord) :
    isCircleB (updatePos o c) = isCircleB o := by
  cases o <;> rfl

/-- Moving twice to the same position is the same as moving once. -/
theorem updatePos_idem (o : LObj) (c : Coord) :
    updatePos (updatePos o c) c = updatePos o c := by
  cases o <;> rfl

/-- Filtering the objects of a layer list by a kind predicate commutes
with dropping the ids. -/
theorem filter_snd_map_snd (P : LObj → Bool) (l : List (Nat × LObj)) :
    (l.map Prod.snd).filter P = (l.filter (fun q => P q.2)).map Prod.snd := by
  rw [List.filter_map]
  rfl

/-- Batch removal filters out exactly the layers whose id is in the
batch. -/
theorem removeAll_spec (hs : List Nat) : ∀ s : MapSt,
    removeAll hs s =
      ⟨s.nextId, s.layers.filter (fun q => !(hs.contains q.1))⟩ := by
  induction hs with
  | nil =>
    intro s
    show s = _
    have : s.layers.filter (fun q => !(List.contains [] q.1)) = s.layers := by
      rw [List.filter_eq_self]
      intro a _
      rfl
    rw [this]
  | cons h t ih =>
    intro s
    show removeAll t (removeLayer h s) = _
    rw [ih (removeLayer h s)]
    show MapSt.mk s.nextId _ = MapSt.mk s.nextId _
    rw [removeLayer]
    simp only [List.filter_filter]
    congr 1
    apply List.filter_congr
    intro x _
    show (!t.contains x.1 && !(x.1 == h)) = !((h :: t).contains x.1)
    rw [List.contains_cons]
    cases t.contains x.1 <;> cases x.1 == h <;> rfl

/-- Layers built for a batch of zones, with ids allocated from `n`. -/
def pairLayersFrom (f : ζ → LObj) : Nat → List ζ → List (Nat × LObj)
  | _, [] => []
  | n, z :: zs => (n, f z) :: pairLayersFrom f (n + 1) zs

/-- `k` consecutive ids starting at `n`. -/
def idsFrom : Nat → Nat → List Nat
  | _, 0 => []
  | n, k + 1 => n :: idsFrom (n + 1) k

/-- Ids of a built batch. -/
theorem pairLayersFrom_map_fst (f : ζ → LObj) :
    ∀ (zs : List ζ) (n : Nat),
      (pairLayersFrom f n zs).map Prod.fst = idsFrom n zs.length := by
  intro zs
  induction zs with
  | nil => intro n; rfl
  | cons z zs ih =>
    intro n
    show n :: (pairLayersFrom f (n + 1) zs).map Prod.fst = _
    rw [ih (n + 1)]
    rfl

/-- Objects of a built batch. -/
theorem pairLayersFrom_map_snd (f : ζ → LObj) :
    ∀ (zs : List ζ) (n : Nat),
      (pairLayersFrom f n zs).map Prod.snd = zs.map f := by
  intro zs
  induction zs with
  | nil => intro n; rfl
  | cons z zs ih =>
    intro n
    show f z :: (pairLayersFrom f (n + 1) zs).map Prod.snd = _
    rw [ih (n + 1)]
    rfl

/-- Membership in a consecutive-id list. -/
theorem idsFrom_mem : ∀ (k n m : Nat), m ∈ idsFrom n k ↔ n ≤ m ∧ m < n + k := by
  intro k
  induction k with
  | zero =>
    intro n m
    simp [idsFrom]
  | succ k ih =>
    intro n m
    show m ∈ n :: idsFrom (n + 1) k ↔ _
    rw [List.mem_cons, ih (n + 1) m]
    omega

/-- Consecutive ids are distinct. -/
theorem idsFrom_nodup : ∀ (k n : Nat), (idsFrom n k).Nodup := by
  intro k
  induction k with
  | zero => intro n; exact List.nodup_nil
  | succ k ih =>
    intro n
    refine List.nodup_cons.mpr ⟨?_, ih (n + 1)⟩
    rw [idsFrom_mem]
    omega

/-- The circle-creation fold appends one fresh circle layer per zone and
pushes the fresh handles in order. -/
theorem addCircles_spec : ∀ (zs : List ThreatZone) (r : Refs) (s : MapSt),
    addCircles zs (r, s) =
      ({ r with threatLayers := r.threatLayers ++ idsFrom s.nextId zs.length },
       ⟨s.nextId + zs.length,
        s.layers ++ pairLayersFrom circleOf s.nextId zs⟩) := by
  intro zs
  induction zs with
  | nil =>
    intro r s
    show (r, s) = _
    simp [idsFrom, pairLayersFrom]
  | cons z zs ih =>
    intro r s
    have hstep : addCircles (z :: zs) (r, s) =
        addCircles zs
          ({ r with threatLayers := r.threatLayers ++ [s.nextId] },
           ⟨s.nextId + 1, s.layers ++ [(s.nextId, circleOf z)]⟩) := by
      simp [addCircles, addLayer]
    rw [hstep, ih]
    simp only [Prod.mk.injEq, Refs.mk.injEq, MapSt.mk.injEq, List.length_cons,
      List.append_assoc, List.singleton_append]
    exact ⟨by simp [idsFrom], by omega, rfl⟩

/-- A layer that is neither a polyline nor a circle is the marker. -/
theorem kind_trichotomy (o : LObj) :
    (!(isPolyB o) && !(isCircleB o)) = isMarkerB o := by
  cases o <;> rfl

/-- A marker is not a polyline. -/
theorem marker_not_poly (o : LObj) (h : isMarkerB o = true) :
    isPolyB o = false := by
  cases o <;> first | rfl | exact absurd h (by simp [isMarkerB])

/-- A marker is not a circle. -/
theorem marker_not_circle (o : LObj) (h : isMarkerB o = true) :
    isCircleB o = false := by
  cases o <;> first | rfl | exact absurd h (by simp [isMarkerB])

/-- A pair list whose ids are `[h]` is a singleton at `h`. -/
theorem map_fst_singleton {l : List (Nat × LObj)} {h : Nat}
    (he : l.map Prod.fst = [h]) : ∃ o, l = [(h, o)] := by
  cases l with
  | nil => simp at he
  | cons q t =>
    cases t with
    | nil =>
      simp at he
      exact ⟨q.2, by rw [← he]⟩
    | cons q2 t2 =>
      have := congrArg List.length he
      simp at this

/-- The in-place move keeps every id. -/
theorem moveFn_fst (h : Nat) (c : Coord) (q : Nat × LObj) :
    ((if q.1 = h then (q.1, updatePos q.2 c) else q)).1 = q.1 := by
  by_cases hq : q.1 = h <;> simp [hq]

/-- The in-place move keeps every kind. -/
theorem moveFn_kind (P : LObj → Bool) (hP : ∀ o c, P (updatePos o c) = P o)
    (h : Nat) (c : Coord) (q : Nat × LObj) :
    P ((if q.1 = h then (q.1, updatePos q.2 c) else q)).2 = P q.2 := by
  by_cases hq : q.1 = h <;> simp [hq, hP]

/-- The in-place move leaves every non-marker layer unchanged. -/
theorem moveFn_nonmarker (h : Nat) (c : Coord) (q : Nat × LObj)
    (hq : isMarkerB q.2 = false) :
    (if q.1 = h then (q.1, updatePos q.2 c) else q) = q := by
  by_cases hh : q.1 = h
  · obtain ⟨a, o⟩ := q
    cases o <;> simp_all [isMarkerB, updatePos]
  · simp [hh]

/-- `markerStep` when no marker exists yet: create one. -/
theorem markerStep_none (p : Props) (r : Refs) (s : MapSt)
    (h : r.userMarker = none) :
    markerStep p (r, s) =
      ({ r with userMarker := some s.nextId },
       ⟨s.nextId + 1,
        s.layers ++ [(s.nextId, .marker p.center p.isDistress)]⟩) := by
  simp [markerStep, h, addLayer]

/-- `markerStep` when a marker exists: move it in place. -/
theorem markerStep_some (p : Props) (r : Refs) (s : MapSt) (hm : Nat)
    (h : r.userMarker = some hm) :
    markerStep p (r, s) = (r, setLatLng hm p.center s) := by
  simp [markerStep, h]

/-- `routeStep` under the polyline tracking clauses: the old line (and
nothing else) is removed, and a fresh line from the effective points is
appended when they are non-empty. -/
theorem routeStep_spec (p : Props) (r : Refs) (s : MapSt)
    (hpoly1 : ∀ q ∈ s.layers, isPolyB q.2 = true → r.routeLayer = some q.1)
    (hpoly2 : ∀ q ∈ s.layers, r.routeLayer = some q.1 → isPolyB q.2 = true) :
    routeStep p (r, s) =
      ((if (effPoints p).length > 0
        then { r with routeLayer := some s.nextId } else r),
       ⟨s.nextId + (if (effPoints p).length > 0 then 1 else 0),
        s.layers.filter (fun q => !(isPolyB q.2)) ++
          (if (effPoints p).length > 0
           then [(s.nextId, polyObjOf p)] else [])⟩) := by
  have hrm :
      (match r.routeLayer with
       | some h => removeLayer h s
       | none => s) =
      ⟨s.nextId, s.layers.filter (fun q => !(isPolyB q.2))⟩ := by
    cases hro : r.routeLayer with
    | none =>
      have : s.layers.filter (fun q => !(isPolyB q.2)) = s.layers := by
        rw [List.filter_eq_self]
        intro q hq
        cases hb : isPolyB q.2 with
        | false => rfl
        | true =>
          have := hpoly1 q hq hb
          rw [hro] at this
          exact absurd this (by simp)
      rw [this]
    | some h =>
      show removeLayer h s = _
      rw [removeLayer]
      congr 1
      apply List.filter_congr
      intro q hq
      cases hb : isPolyB q.2 with
      | true =>
        have := hpoly1 q hq hb
        rw [hro] at this
        have hqh : q.1 = h := by
          injection this with hh
          omega
        simp [hqh]
      | false =>
        have hne : q.1 ≠ h := by
          intro hqh
          have := hpoly2 q hq (by rw [hro, hqh])
          rw [hb] at this
          exact absurd this (by simp)
        simp [hne]
  show (let s1 :=
          match r.routeLayer with
          | some h => removeLayer h s
          | none => s
        let pts := effPoints p
        if pts.length > 0 then
          let a := addLayer
            (.polyline pts (routeColor p.isDistress) (routeDash p.isDistress)) s1
          ({ r with routeLayer := some a.1 }, a.2)
        else (r, s1)) = _
  rw [hrm]
  by_cases hpt : (effPoints p).length > 0
  · simp only [hpt, if_true, addLayer]
    rfl
  · simp [hpt]

/-- `threatStep` under the circle tracking clauses: every existing overlay
(and nothing else) is removed, and one circle per zone is appended when
`showThreats` is on. -/
theorem threatStep_spec (p : Props) (r : Refs) (s : MapSt)
    (hc1 : (s.layers.filter (fun q => isCircleB q.2)).map Prod.fst =
      r.threatLayers)
    (hc2 : ∀ q ∈ s.layers, q.1 ∈ r.threatLayers → isCircleB q.2 = true) :
    threatStep p (r, s) =
      ({ r with threatLayers :=
          (if p.showThreats
           then idsFrom s.nextId p.threatZones.length else []) },
       ⟨s.nextId + (if p.showThreats then p.threatZones.length else 0),
        s.layers.filter (fun q => !(isCircleB q.2)) ++
          (if p.showThreats
           then pairLayersFrom circleOf s.nextId p.threatZones else [])⟩) := by
  have hrm : removeAll r.threatLayers s =
      ⟨s.nextId, s.layers.filter (fun q => !(isCircleB q.2))⟩ := by
    rw [removeAll_spec]
    congr 1
    apply List.filter_congr
    intro q hq
    cases hb : isCircleB q.2 with
    | true =>
      have hmem : q.1 ∈ r.threatLayers := by
        rw [← hc1]
        exact List.mem_map_of_mem Prod.fst
          (List.mem_filter.mpr ⟨hq, hb⟩)
      have hcc : r.threatLayers.contains q.1 = true :=
        List.elem_eq_true_of_mem hmem
      rw [hcc]
    | false =>
      have hnm : q.1 ∉ r.threatLayers := by
        intro hmem
        have := hc2 q hq hmem
        rw [hb] at this
        exact absurd this (by simp)
      have : r.threatLayers.contains q.1 = false := by
        cases hcc : r.threatLayers.contains q.1 with
        | false => rfl
        | true => exact absurd (List.mem_of_elem_eq_true hcc) hnm
      rw [this]
  show (let s1 := removeAll r.threatLayers s
        let r1 := { r with threatLayers := ([] : List Nat) }
        if p.showThreats then addCircles p.threatZones (r1, s1) else (r1, s1))
      = _
  rw [hrm]
  by_cases hsh : p.showThreats
  · simp only [hsh, if_true]
    rw [addCircles_spec]
    rfl
  · simp [hsh]

/-- Field-wise form of `markerStep` with no marker yet. -/
theorem markerStep_none' (p : Props) (rt : Option Nat) (th : List Nat)
    (n : Nat) (L : List (Nat × LObj)) :
    markerStep p (⟨none, rt, th⟩, ⟨n, L⟩) =
      (⟨some n, rt, th⟩,
       ⟨n + 1, L ++ [(n, .marker p.center p.isDistress)]⟩) :=
  markerStep_none p ⟨none, rt, th⟩ ⟨n, L⟩ rfl

/-- Field-wise form of `markerStep` with an existing marker. -/
theorem markerStep_some' (p : Props) (hm : Nat) (rt : Option Nat)
    (th : List Nat) (n : Nat) (L : List (Nat × LObj)) :
    markerStep p (⟨some hm, rt, th⟩, ⟨n, L⟩) =
      (⟨some hm, rt, th⟩,
       ⟨n, L.map (fun q =>
          if q.1 = hm then (q.1, updatePos q.2 p.center) else q)⟩) :=
  markerStep_some p ⟨some hm, rt, th⟩ ⟨n, L⟩ hm rfl

/-- Field-wise form of the `routeStep` characterization. -/
theorem routeStep_spec' (p : Props) (um rt : Option Nat) (th : List Nat)
    (n : Nat) (L : List (Nat × LObj))
    (h1 : ∀ q ∈ L, isPolyB q.2 = true → rt = some q.1)
    (h2 : ∀ q ∈ L, rt = some q.1 → isPolyB q.2 = true) :
    routeStep p (⟨um, rt, th⟩, ⟨n, L⟩) =
      (⟨um, (if (effPoints p).length > 0 then some n else rt), th⟩,
       ⟨n + (if (effPoints p).length > 0 then 1 else 0),
        L.filter (fun q => !(isPolyB q.2)) ++
          (if (effPoints p).length > 0 then [(n, polyObjOf p)] else [])⟩)
    := by
  rw [routeStep_spec p ⟨um, rt, th⟩ ⟨n, L⟩ h1 h2]
  by_cases hpt : (effPoints p).length > 0 <;> simp [hpt]

/-- Field-wise form of the `threatStep` characterization. -/
theorem threatStep_spec' (p : Props) (um rt : Option Nat) (th : List Nat)
    (n : Nat) (L : List (Nat × LObj))
    (hc1 : (L.filter (fun q => isCircleB q.2)).map Prod.fst = th)
    (hc2 : ∀ q ∈ L, q.1 ∈ th → isCircleB q.2 = true) :
    threatStep p (⟨um, rt, th⟩, ⟨n, L⟩) =
      (⟨um, rt,
        (if p.showThreats then idsFrom n p.threatZones.length else [])⟩,
       ⟨n + (if p.showThreats then p.threatZones.length else 0),
        L.filter (fun q => !(isCircleB q.2)) ++
          (if p.showThreats
           then pairLayersFrom circleOf n p.threatZones else [])⟩) := by
  rw [threatStep_spec p ⟨um, rt, th⟩ ⟨n, L⟩ hc1 hc2]

/-- Filtering a built batch by a kind its objects never have gives
nothing. -/
theorem pairLayersFrom_filter_false (f : ζ → LObj) (P : LObj → Bool)
    (hPf : ∀ z, P (f z) = false) :
    ∀ (zs : List ζ) (n : Nat),
      (pairLayersFrom f n zs).filter (fun q => P q.2) = [] := by
  intro zs
  induction zs with
  | nil => intro n; rfl
  | cons z zs ih =>
    intro n
    show List.filter _ ((n, f z) :: pairLayersFrom f (n + 1) zs) = []
    rw [List.filter_cons_of_neg (by simp [hPf z]), ih (n + 1)]

/-- Filtering a built batch by a kind all its objects have keeps it. -/
theorem pairLayersFrom_filter_true (f : ζ → LObj) (P : LObj → Bool)
    (hPf : ∀ z, P (f z) = true) :
    ∀ (zs : List ζ) (n : Nat),
      (pairLayersFrom f n zs).filter (fun q => P q.2) =
        pairLayersFrom f n zs := by
  intro zs
  induction zs with
  | nil => intro n; rfl
  | cons z zs ih =>
    intro n
    show List.filter _ ((n, f z) :: pairLayersFrom f (n + 1) zs) = _
    rw [List.filter_cons_of_pos (by simp [hPf z]), ih (n + 1)]
    rfl

/-- Ids and objects of batch members. -/
theorem pairLayersFrom_mem (f : ζ → LObj) :
    ∀ (zs : List ζ) (n : Nat) (q : Nat × LObj),
      q ∈ pairLayersFrom f n zs →
      (n ≤ q.1 ∧ q.1 < n + zs.length) ∧ ∃ z ∈ zs, q.2 = f z := by
  intro zs
  induction zs with
  | nil => intro n q hq; exact absurd hq (List.not_mem_nil q)
  | cons z zs ih =>
    intro n q hq
    rcases List.mem_cons.mp hq with hq | hq
    · subst hq
      exact ⟨⟨le_refl n, by simp only [List.length_cons]; omega⟩,
        z, List.mem_cons_self z zs, rfl⟩
    · obtain ⟨⟨h1, h2⟩, z', hz', ho⟩ := ih (n + 1) q hq
      exact ⟨⟨by omega, by simp only [List.length_cons]; omega⟩,
        z', List.mem_cons_of_mem z hz', ho⟩

/-- The circle layer of a zone is a circle. -/
theorem circleOf_isCircle (z : ThreatZone) : isCircleB (circleOf z) = true := rfl

/-- The circle layer of a zone is not a marker. -/
theorem circleOf_not_marker (z : ThreatZone) : isMarkerB (circleOf z) = false :=
  rfl

/-- The circle layer of a zone is not a polyline. -/
theorem circleOf_not_poly (z : ThreatZone) : isPolyB (circleOf z) = false := rfl

/-- A polyline is not a marker. -/
theorem poly_not_marker (o : LObj) (h : isPolyB o = true) :
    isMarkerB o = false := by
  cases o <;> first | rfl | exact absurd h (by simp [isPolyB])

/-- A polyline is not a circle. -/
theorem poly_not_circle (o : LObj) (h : isPolyB o = true) :
    isCircleB o = false := by
  cases o <;> first | rfl | exact absurd h (by simp [isPolyB])

/-- A circle is not a marker. -/
theorem circle_not_marker (o : LObj) (h : isCircleB o = true) :
    isMarkerB o = false := by
  cases o <;> first | rfl | exact absurd h (by simp [isCircleB])

/-- A circle is not a polyline. -/
theorem circle_not_poly (o : LObj) (h : isCircleB o = true) :
    isPolyB o = false := by
  cases o <;> first | rfl | exact absurd h (by simp [isCircleB])

/-- The created route line is a polyline. -/
theorem polyObjOf_isPoly (p : Props) : isPolyB (polyObjOf p) = true := rfl

/-- A layer list of the canonical shape — one marker, the tracked
polylines, the tracked circles — satisfies the reconciler invariant. -/
theorem Inv_canonical (mId : Nat) (mobj : LObj) (hmo : isMarkerB mobj = true)
    (rt : Option Nat) (th : List Nat) (P C : List (Nat × LObj)) (T : Nat)
    (hPp : ∀ q ∈ P, isPolyB q.2 = true)
    (hPrt : ∀ q ∈ P, rt = some q.1)
    (hrtP : ∀ q ∈ ([(mId, mobj)] ++ P ++ C),
      rt = some q.1 → isPolyB q.2 = true)
    (hrtT : ∀ h, rt = some h → h < T)
    (hCc : ∀ q ∈ C, isCircleB q.2 = true)
    (hCfst : C.map Prod.fst = th)
    (hth : ∀ q ∈ ([(mId, mobj)] ++ P ++ C), q.1 ∈ th → isCircleB q.2 = true)
    (hnd : ((([(mId, mobj)] ++ P ++ C)).map Prod.fst).Nodup)
    (hbound : ∀ q ∈ ([(mId, mobj)] ++ P ++ C), q.1 < T) :
    Inv ⟨some mId, rt, th⟩ ⟨T, [(mId, mobj)] ++ P ++ C⟩ := by
  have hfilterM :
      (([(mId, mobj)] ++ P ++ C).filter (fun q => isMarkerB q.2)) =
        [(mId, mobj)] := by
    rw [List.filter_append, List.filter_append]
    rw [List.filter_cons_of_pos (by simpa using hmo), List.filter_nil]
    have hp : P.filter (fun q => isMarkerB q.2) = [] := by
      rw [List.filter_eq_nil]
      intro q hq
      simp [poly_not_marker q.2 (hPp q hq)]
    have hc : C.filter (fun q => isMarkerB q.2) = [] := by
      rw [List.filter_eq_nil]
      intro q hq
      simp [circle_not_marker q.2 (hCc q hq)]
    rw [hp, hc]
    rfl
  have hfilterC :
      (([(mId, mobj)] ++ P ++ C).filter (fun q => isCircleB q.2)) = C := by
    rw [List.filter_append, List.filter_append]
    rw [List.filter_cons_of_neg (by simp [marker_not_circle mobj hmo]),
      List.filter_nil]
    have hp : P.filter (fun q => isCircleB q.2) = [] := by
      rw [List.filter_eq_nil]
      intro q hq
      simp [poly_not_circle q.2 (hPp q hq)]
    have hc : C.filter (fun q => isCircleB q.2) = C := by
      rw [List.filter_eq_self]
      intro q hq
      exact hCc q hq
    rw [hp, hc]
    rfl
  refine ⟨hnd, hbound, ?_, ?_, hrtP, hrtT, ?_, hth⟩
  · rw [hfilterM]
    rfl
  · intro q hq hpoly
    rcases List.mem_append.mp hq with hq' | hqC
    · rcases List.mem_append.mp hq' with hqM | hqP
      · rcases List.mem_singleton.mp hqM with rfl
        rw [marker_not_poly mobj hmo] at hpoly
        exact absurd hpoly (by simp)
      · exact hPrt q hqP
    · rw [circle_not_poly q.2 (hCc q hqC)] at hpoly
      exact absurd hpoly (by simp)
  · rw [hfilterC]
    exact hCfst

/-- The refs/map pair a reconciliation leaves behind — marker `mId`, the
fresh route line id `N` (or the possibly stale old one), fresh circle ids —
satisfies the reconciler invariant. -/
theorem Inv_output (p : Props) (mId : Nat) (mobj : LObj)
    (hmo : isMarkerB mobj = true) (rtOld : Option Nat) (N : Nat)
    (hmN : mId < N)
    (hrt : ∀ h, rtOld = some h → h < N)
    (hrtm : ∀ h, rtOld = some h → h ≠ mId) :
    Inv
      ⟨some mId,
       (if (effPoints p).length > 0 then some N else rtOld),
       (if p.showThreats
        then idsFrom (N + (if (effPoints p).length > 0 then 1 else 0))
               p.threatZones.length
        else [])⟩
      ⟨N + (if (effPoints p).length > 0 then 1 else 0) +
         (if p.showThreats then p.threatZones.length else 0),
       [(mId, mobj)] ++
         (if (effPoints p).length > 0 then [(N, polyObjOf p)] else []) ++
         (if p.showThreats
          then pairLayersFrom circleOf
                 (N + (if (effPoints p).length > 0 then 1 else 0))
                 p.threatZones
          else [])⟩ := by
  by_cases hpt : (effPoints p).length > 0 <;> by_cases hsh : p.showThreats <;>
    simp only [hpt, hsh, if_true, if_false]
  -- poly created, circles created
  case pos =>
    apply Inv_canonical mId mobj hmo (some N)
      (idsFrom (N + 1) p.threatZones.length)
      [(N, polyObjOf p)]
      (pairLayersFrom circleOf (N + 1) p.threatZones)
      (N + 1 + p.threatZones.length)
    · intro q hq
      rw [List.mem_singleton.mp hq]
      exact polyObjOf_isPoly p
    · intro q hq
      rw [List.mem_singleton.mp hq]
    · intro q hq hq1
      have hq1' : q.1 = N := by injection hq1 with h; omega
      rcases List.mem_append.mp hq with hq' | hqC
      · rcases List.mem_append.mp hq' with hqM | hqP
        · rcases List.mem_singleton.mp hqM with rfl
          omega
        · rw [List.mem_singleton.mp hqP]
          exact polyObjOf_isPoly p
      · obtain ⟨⟨hb1, _⟩, _⟩ := pairLayersFrom_mem circleOf _ _ q hqC
        omega
    · intro h hh
      injection hh with hh
      omega
    · intro q hq
      obtain ⟨_, z, _, ho⟩ := pairLayersFrom_mem circleOf _ _ q hq
      rw [ho]
      exact circleOf_isCircle z
    · exact pairLayersFrom_map_fst circleOf _ _
    · intro q hq hmem
      have hqb := (idsFrom_mem _ _ _).mp hmem
      rcases List.mem_append.mp hq with hq' | hqC
      · rcases List.mem_append.mp hq' with hqM | hqP
        · rcases List.mem_singleton.mp hqM with rfl
          omega
        · rcases List.mem_singleton.mp hqP with rfl
          omega
      · obtain ⟨_, z, _, ho⟩ := pairLayersFrom_mem circleOf _ _ q hqC
        rw [ho]
        exact circleOf_isCircle z
    · have hids : (([(mId, mobj)] ++ [(N, polyObjOf p)] ++
          pairLayersFrom circleOf (N + 1) p.threatZones).map Prod.fst) =
          [mId] ++ [N] ++ idsFrom (N + 1) p.threatZones.length := by
        rw [List.map_append, List.map_append, pairLayersFrom_map_fst]
        rfl
      rw [hids, List.nodup_append, List.nodup_append]
      refine ⟨⟨List.nodup_singleton mId, List.nodup_singleton N, ?_⟩,
        idsFrom_nodup _ _, ?_⟩
      · intro a ha hb
        rw [List.mem_singleton.mp ha] at hb
        rw [List.mem_singleton] at hb
        omega
      · intro a ha hb
        have hab := (idsFrom_mem _ _ _).mp hb
        rcases List.mem_append.mp ha with ha | ha <;>
          rw [List.mem_singleton] at ha <;> omega
    · intro q hq
      rcases List.mem_append.mp hq with hq' | hqC
      · rcases List.mem_append.mp hq' with hqM | hqP
        · rcases List.mem_singleton.mp hqM with rfl
          simp only
          omega
        · rcases List.mem_singleton.mp hqP with rfl
          simp only
          omega
      · obtain ⟨⟨_, hb2⟩, _⟩ := pairLayersFrom_mem circleOf _ _ q hqC
        omega
  -- poly created, no circles
  case neg =>
    apply Inv_canonical mId mobj hmo (some N) [] [(N, polyObjOf p)] []
      (N + 1 + 0)
    · intro q hq
      rw [List.mem_singleton.mp hq]
      exact polyObjOf_isPoly p
    · intro q hq
      rw [List.mem_singleton.mp hq]
    · intro q hq hq1
      have hq1' : q.1 = N := by injection hq1 with h; omega
      rcases List.mem_append.mp hq with hq' | hqC
      · rcases List.mem_append.mp hq' with hqM | hqP
        · rcases List.mem_singleton.mp hqM with rfl
          omega
        · rw [List.mem_singleton.mp hqP]
          exact polyObjOf_isPoly p
      · exact absurd hqC (List.not_mem_nil q)
    · intro h hh
      injection hh with hh
      omega
    · intro q hq
      exact absurd hq (List.not_mem_nil q)
    · rfl
    · intro q _ hmem
      exact absurd hmem (List.not_mem_nil q.1)
    · have hids : (([(mId, mobj)] ++ [(N, polyObjOf p)] ++
          ([] : List (Nat × LObj))).map Prod.fst) = [mId, N] := by
        rfl
      rw [hids]
      refine List.nodup_cons.mpr ⟨?_, List.nodup_singleton N⟩
      rw [List.mem_singleton]
      omega
    · intro q hq
      rcases List.mem_append.mp hq with hq' | hqC
      · rcases List.mem_append.mp hq' with hqM | hqP
        · rcases List.mem_singleton.mp hqM with rfl
          simp only
          omega
        · rcases List.mem_singleton.mp hqP with rfl
          simp only
          omega
      · exact absurd hqC (List.not_mem_nil q)
  -- no poly, circles created
  case pos =>
    apply Inv_canonical mId mobj hmo rtOld
      (idsFrom (N + 0) p.threatZones.length) []
      (pairLayersFrom circleOf (N + 0) p.threatZones)
      (N + 0 + p.threatZones.length)
    · intro q hq
      exact absurd hq (List.not_mem_nil q)
    · intro q hq
      exact absurd hq (List.not_mem_nil q)
    · intro q hq hq1
      have hq1' : q.1 < N := hrt q.1 hq1
      have hq1m : q.1 ≠ mId := hrtm q.1 hq1
      rcases List.mem_append.mp hq with hq' | hqC
      · rcases List.mem_append.mp hq' with hqM | hqP
        · rcases List.mem_singleton.mp hqM with rfl
          omega
        · exact absurd hqP (List.not_mem_nil q)
      · obtain ⟨⟨hb1, _⟩, _⟩ := pairLayersFrom_mem circleOf _ _ q hqC
        omega
    · intro h hh
      have := hrt h hh
      omega
    · intro q hq
      obtain ⟨_, z, _, ho⟩ := pairLayersFrom_mem circleOf _ _ q hq
      rw [ho]
      exact circleOf_isCircle z
    · exact pairLayersFrom_map_fst circleOf _ _
    · intro q hq hmem
      have hqb := (idsFrom_mem _ _ _).mp hmem
      rcases List.mem_append.mp hq with hq' | hqC
      · rcases List.mem_append.mp hq' with hqM | hqP
        · rcases List.mem_singleton.mp hqM with rfl
          omega
        · exact absurd hqP (List.not_mem_nil q)
      · obtain ⟨_, z, _, ho⟩ := pairLayersFrom_mem circleOf _ _ q hqC
        rw [ho]
        exact circleOf_isCircle z
    · have hids : (([(mId, mobj)] ++ ([] : List (Nat × LObj)) ++
          pairLayersFrom circleOf (N + 0) p.threatZones).map Prod.fst) =
          [mId] ++ idsFrom (N + 0) p.threatZones.length := by
        rw [List.map_append, List.map_append, pairLayersFrom_map_fst]
        rfl
      rw [hids, List.nodup_append]
      refine ⟨List.nodup_singleton mId, idsFrom_nodup _ _, ?_⟩
      intro a ha hb
      have hab := (idsFrom_mem _ _ _).mp hb
      rw [List.mem_singleton] at ha
      omega
    · intro q hq
      rcases List.mem_append.mp hq with hq' | hqC
      · rcases List.mem_append.mp hq' with hqM | hqP
        · rcases List.mem_singleton.mp hqM with rfl
          simp only
          omega
        · exact absurd hqP (List.not_mem_nil q)
      · obtain ⟨⟨_, hb2⟩, _⟩ := pairLayersFrom_mem circleOf _ _ q hqC
        omega
  -- no poly, no circles
  case neg =>
    apply Inv_canonical mId mobj hmo rtOld [] [] [] (N + 0 + 0)
    · intro q hq
      exact absurd hq (List.not_mem_nil q)
    · intro q hq
      exact absurd hq (List.not_mem_nil q)
    · intro q hq hq1
      have hq1' : q.1 < N := hrt q.1 hq1
      have hq1m : q.1 ≠ mId := hrtm q.1 hq1
      rcases List.mem_append.mp hq with hq' | hqC
      · rcases List.mem_append.mp hq' with hqM | hqP
        · rcases List.mem_singleton.mp hqM with rfl
          omega
        · exact absurd hqP (List.not_mem_nil q)
      · exact absurd hqC (List.not_mem_nil q)
    · intro h hh
      have := hrt h hh
      omega
    · intro q hq
      exact absurd hq (List.not_mem_nil q)
    · rfl
    · intro q _ hmem
      exact absurd hmem (List.not_mem_nil q.1)
    · exact List.nodup_singleton mId
    · intro q hq
      rcases List.mem_append.mp hq with hq' | hqC
      · rcases List.mem_append.mp hq' with hqM | hqP
        · rcases List.mem_singleton.mp hqM with rfl
          simp only
          omega
        · exact absurd hqP (List.not_mem_nil q)
      · exact absurd hqC (List.not_mem_nil q)

/-- Successive kind filters compose to the marker filter. -/
theorem filter_not_poly_not_circle (l : List (Nat × LObj)) :
    (l.filter (fun q => !(isPolyB q.2))).filter (fun q => !(isCircleB q.2)) =
      l.filter (fun q => isMarkerB q.2) := by
  rw [List.filter_filter]
  apply List.filter_congr
  intro q _
  show (!(isCircleB q.2) && !(isPolyB q.2)) = isMarkerB q.2
  rw [Bool.and_comm]
  exact kind_trichotomy q.2

/-- One reconciliation from a state with no marker yet: the marker is
created (styled from the current distress flag), the route line is built
fresh from the effective points, and the circles are rebuilt per zone. -/
theorem mapComponentUpdate_none (p : Props) (r : Refs) (s : MapSt)
    (hInv : Inv r s) (hum : r.userMarker = none) :
    mapComponentUpdate p (r, s) =
      (⟨some s.nextId,
        (if (effPoints p).length > 0
         then some (s.nextId + 1) else r.routeLayer),
        (if p.showThreats
         then idsFrom
                (s.nextId + 1 + (if (effPoints p).length > 0 then 1 else 0))
                p.threatZones.length
         else [])⟩,
       ⟨s.nextId + 1 + (if (effPoints p).length > 0 then 1 else 0) +
          (if p.showThreats then p.threatZones.length else 0),
        [(s.nextId, .marker p.center p.isDistress)] ++
          (if (effPoints p).length > 0
           then [(s.nextId + 1, polyObjOf p)] else []) ++
          (if p.showThreats
           then pairLayersFrom circleOf
                  (s.nextId + 1 + (if (effPoints p).length > 0 then 1 else 0))
                  p.threatZones
           else [])⟩) := by
  obtain ⟨um, rt, th⟩ := r
  obtain ⟨n, L⟩ := s
  have hum' : um = none := hum
  subst hum'
  obtain ⟨hnd, hbd, hmk, hp1, hp2, hrtb, hc1, hc2⟩ := hInv
  dsimp only at hnd hbd hmk hp1 hp2 hrtb hc1 hc2
  have hmk0 : L.filter (fun q => isMarkerB q.2) = [] :=
    List.map_eq_nil_iff.mp (hmk : _ = ([] : List Nat))
  have hthb : ∀ x ∈ th, x < n := by
    intro x hx
    rw [← hc1] at hx
    obtain ⟨q, hq, hqx⟩ := List.mem_map.mp hx
    rw [← hqx]
    exact hbd q (List.mem_filter.mp hq).1
  have hp1' : ∀ q ∈ L ++ [((n, .marker p.center p.isDistress) : Nat × LObj)],
      isPolyB q.2 = true → rt = some q.1 := by
    intro q hq hpoly
    rcases List.mem_append.mp hq with h | h
    · exact hp1 q h hpoly
    · rw [List.mem_singleton.mp h] at hpoly
      exact absurd hpoly (by simp [isPolyB])
  have hp2' : ∀ q ∈ L ++ [((n, .marker p.center p.isDistress) : Nat × LObj)],
      rt = some q.1 → isPolyB q.2 = true := by
    intro q hq hrt
    rcases List.mem_append.mp hq with h | h
    · exact hp2 q h hrt
    · rw [List.mem_singleton.mp h] at hrt ⊢
      have := hrtb n hrt
      omega
  have hfilterP :
      (L ++ [((n, .marker p.center p.isDistress) : Nat × LObj)]).filter
        (fun q => !(isPolyB q.2)) =
      L.filter (fun q => !(isPolyB q.2)) ++
        [((n, .marker p.center p.isDistress) : Nat × LObj)] := by
    rw [List.filter_append]
    rfl
  have hPmem : ∀ q ∈ (if (effPoints p).length > 0
      then [((n + 1, polyObjOf p) : Nat × LObj)] else []),
      q.1 = n + 1 ∧ q.2 = polyObjOf p := by
    intro q hq
    by_cases hpt : (effPoints p).length > 0
    · rw [if_pos hpt] at hq
      rw [List.mem_singleton.mp hq]
      exact ⟨rfl, rfl⟩
    · rw [if_neg hpt] at hq
      exact absurd hq (List.not_mem_nil q)
  have hc1' : ((L.filter (fun q => !(isPolyB q.2)) ++
        [((n, .marker p.center p.isDistress) : Nat × LObj)] ++
        (if (effPoints p).length > 0
         then [((n + 1, polyObjOf p) : Nat × LObj)] else [])).filter
          (fun q => isCircleB q.2)).map Prod.fst = th := by
    rw [List.filter_append, List.filter_append]
    have h2 : ((if (effPoints p).length > 0
        then [((n + 1, polyObjOf p) : Nat × LObj)] else []).filter
          (fun q => isCircleB q.2)) = [] := by
      rw [List.filter_eq_nil_iff]
      intro q hq
      rw [(hPmem q hq).2]
      simp [polyObjOf, isCircleB]
    have h3 : (L.filter (fun q => !(isPolyB q.2))).filter
        (fun q => isCircleB q.2) = L.filter (fun q => isCircleB q.2) := by
      rw [List.filter_filter]
      apply List.filter_congr
      intro q _
      cases hb : isCircleB q.2 with
      | false => simp
      | true => simp [circle_not_poly q.2 hb]
    rw [h2, h3, List.append_nil]
    have h1 : (([((n, .marker p.center p.isDistress) : Nat × LObj)]).filter
        (fun q => isCircleB q.2)) = [] := rfl
    rw [h1, List.append_nil]
    exact hc1
  have hc2' : ∀ q ∈ L.filter (fun q => !(isPolyB q.2)) ++
      [((n, .marker p.center p.isDistress) : Nat × LObj)] ++
      (if (effPoints p).length > 0
       then [((n + 1, polyObjOf p) : Nat × LObj)] else []),
      q.1 ∈ th → isCircleB q.2 = true := by
    intro q hq hmem
    rcases List.mem_append.mp hq with hq' | hqP
    · rcases List.mem_append.mp hq' with hqs | hqm
      · exact hc2 q (List.mem_filter.mp hqs).1 hmem
      · rw [List.mem_singleton.mp hqm] at hmem
        have := hthb n hmem
        omega
    · rw [(hPmem q hqP).1] at hmem
      have := hthb (n + 1) hmem
      omega
  show threatStep p (routeStep p (markerStep p (⟨none, rt, th⟩, ⟨n, L⟩))) = _
  rw [markerStep_none' p rt th n L]
  rw [routeStep_spec' p (some n) rt th (n + 1)
    (L ++ [(n, LObj.marker p.center p.isDistress)]) hp1' hp2']
  rw [hfilterP]
  rw [threatStep_spec' p (some n)
    (if (effPoints p).length > 0 then some (n + 1) else rt) th
    (n + 1 + (if (effPoints p).length > 0 then 1 else 0))
    (L.filter (fun q => !(isPolyB q.2)) ++
      [(n, LObj.marker p.center p.isDistress)] ++
      (if (effPoints p).length > 0
       then [((n + 1, polyObjOf p) : Nat × LObj)] else []))
    hc1' hc2']
  rw [Prod.mk.injEq]
  refine ⟨rfl, ?_⟩
  rw [MapSt.mk.injEq]
  refine ⟨rfl, ?_⟩
  rw [List.filter_append, List.filter_append, filter_not_poly_not_circle,
    hmk0, List.nil_append]
  have hmkc : (([((n, .marker p.center p.isDistress) : Nat × LObj)]).filter
      (fun q => !(isCircleB q.2))) =
      [((n, .marker p.center p.isDistress) : Nat × LObj)] := rfl
  have hPc : ((if (effPoints p).length > 0
      then [((n + 1, polyObjOf p) : Nat × LObj)] else []).filter
        (fun q => !(isCircleB q.2))) =
      (if (effPoints p).length > 0
       then [((n + 1, polyObjOf p) : Nat × LObj)] else []) := by
    rw [List.filter_eq_self]
    intro q hq
    rw [(hPmem q hq).2]
    simp [polyObjOf, isCircleB]
  rw [hmkc, hPc]

/-- Filtering after an in-place move commutes with filtering before it,
for any kind predicate. -/
theorem map_moveFn_filter (hm : Nat) (c : Coord) (P : LObj → Bool)
    (hP : ∀ o c, P (updatePos o c) = P o) (L : List (Nat × LObj)) :
    (L.map (fun q => if q.1 = hm then (q.1, updatePos q.2 c) else q)).filter
      (fun q => P q.2) =
    (L.filter (fun q => P q.2)).map
      (fun q => if q.1 = hm then (q.1, updatePos q.2 c) else q) := by
  rw [List.filter_map]
  congr 1
  apply List.filter_congr
  intro q _
  exact moveFn_kind P hP hm c q

/-- The in-place move leaves every filtered non-marker sublist unchanged. -/
theorem map_moveFn_filter_nonmarker (hm : Nat) (c : Coord) (P : LObj → Bool)
    (hP : ∀ o c, P (updatePos o c) = P o)
    (hPm : ∀ o, P o = true → isMarkerB o = false) (L : List (Nat × LObj)) :
    (L.map (fun q => if q.1 = hm then (q.1, updatePos q.2 c) else q)).filter
      (fun q => P q.2) = L.filter (fun q => P q.2) := by
  rw [map_moveFn_filter hm c P hP L]
  have h : ∀ q ∈ L.filter (fun q => P q.2),
      (if q.1 = hm then (q.1, updatePos q.2 c) else q) = q := by
    intro q hq
    exact moveFn_nonmarker hm c q (hPm q.2 (List.mem_filter.mp hq).2)
  rw [List.map_congr_left h]
  exact List.map_id _

/-- The in-place move keeps the id list. -/
theorem map_moveFn_fst (hm : Nat) (c : Coord) (L : List (Nat × LObj)) :
    (L.map (fun q => if q.1 = hm then (q.1, updatePos q.2 c) else q)).map
      Prod.fst = L.map Prod.fst := by
  rw [List.map_map]
  apply List.map_congr_left
  intro q _
  exact moveFn_fst hm c q

/-- One reconciliation from a state with an existing marker: the marker is
moved in place to the current center with its icon style untouched, the
route line is rebuilt fresh from the effective points, and the circles are
rebuilt per zone. -/
theorem mapComponentUpdate_some (p : Props) (r : Refs) (s : MapSt)
    (hInv : Inv r s) (hm : Nat) (hum : r.userMarker = some hm) :
    ∃ mo, (s.layers.filter (fun q => isMarkerB q.2)) = [(hm, mo)] ∧
      isMarkerB mo = true ∧
      mapComponentUpdate p (r, s) =
      (⟨some hm,
        (if (effPoints p).length > 0 then some s.nextId else r.routeLayer),
        (if p.showThreats
         then idsFrom
                (s.nextId + (if (effPoints p).length > 0 then 1 else 0))
                p.threatZones.length
         else [])⟩,
       ⟨s.nextId + (if (effPoints p).length > 0 then 1 else 0) +
          (if p.showThreats then p.threatZones.length else 0),
        [(hm, updatePos mo p.center)] ++
          (if (effPoints p).length > 0
           then [(s.nextId, polyObjOf p)] else []) ++
          (if p.showThreats
           then pairLayersFrom circleOf
                  (s.nextId + (if (effPoints p).length > 0 then 1 else 0))
                  p.threatZones
           else [])⟩) := by
  obtain ⟨um, rt, th⟩ := r
  obtain ⟨n, L⟩ := s
  have hum' : um = some hm := hum
  subst hum'
  obtain ⟨hnd, hbd, hmk, hp1, hp2, hrtb, hc1, hc2⟩ := hInv
  dsimp only at hnd hbd hmk hp1 hp2 hrtb hc1 hc2
  obtain ⟨mo, hL⟩ := map_fst_singleton (hmk : _ = [hm])
  have hmoF : ((hm, mo) : Nat × LObj) ∈ L.filter (fun q => isMarkerB q.2) := by
    rw [hL]
    exact List.mem_singleton.mpr rfl
  have hmoL : (hm, mo) ∈ L := (List.mem_filter.mp hmoF).1
  have hmo : isMarkerB mo = true := (List.mem_filter.mp hmoF).2
  refine ⟨mo, hL, hmo, ?_⟩
  have hthb : ∀ x ∈ th, x < n := by
    intro x hx
    rw [← hc1] at hx
    obtain ⟨q, hq, hqx⟩ := List.mem_map.mp hx
    rw [← hqx]
    exact hbd q (List.mem_filter.mp hq).1
  show threatStep p (routeStep p (markerStep p (⟨some hm, rt, th⟩, ⟨n, L⟩)))
      = _
  rw [markerStep_some' p hm rt th n L]
  set f : Nat × LObj → Nat × LObj :=
    fun q => if q.1 = hm then (q.1, updatePos q.2 p.center) else q with hfdef
  have hmemf : ∀ q ∈ L.map f,
      ∃ q0 ∈ L, q.1 = q0.1 ∧ isPolyB q.2 = isPolyB q0.2 ∧
        isCircleB q.2 = isCircleB q0.2 := by
    intro q hq
    obtain ⟨q0, hq0, hfq⟩ := List.mem_map.mp hq
    refine ⟨q0, hq0, ?_, ?_, ?_⟩
    · rw [← hfq, hfdef]
      exact moveFn_fst hm p.center q0
    · rw [← hfq, hfdef]
      exact moveFn_kind isPolyB updatePos_isPoly hm p.center q0
    · rw [← hfq, hfdef]
      exact moveFn_kind isCircleB updatePos_isCircle hm p.center q0
  have hp1' : ∀ q ∈ L.map f, isPolyB q.2 = true → rt = some q.1 := by
    intro q hq hpoly
    obtain ⟨q0, hq0, he1, he2, _⟩ := hmemf q hq
    rw [he1]
    exact hp1 q0 hq0 (by rw [← he2]; exact hpoly)
  have hp2' : ∀ q ∈ L.map f, rt = some q.1 → isPolyB q.2 = true := by
    intro q hq hrt
    obtain ⟨q0, hq0, he1, he2, _⟩ := hmemf q hq
    rw [he2]
    exact hp2 q0 hq0 (by rw [← he1]; exact hrt)
  rw [routeStep_spec' p (some hm) rt th n (L.map f) hp1' hp2']
  have hfp : (L.map f).filter (fun q => !(isPolyB q.2)) =
      (L.filter (fun q => !(isPolyB q.2))).map f :=
    map_moveFn_filter hm p.center (fun o => !(isPolyB o))
      (fun o c => by simp [updatePos_isPoly]) L
  rw [hfp]
  have h3 : (L.filter (fun q => !(isPolyB q.2))).filter
      (fun q => isCircleB q.2) = L.filter (fun q => isCircleB q.2) := by
    rw [List.filter_filter]
    apply List.filter_congr
    intro q _
    cases hb : isCircleB q.2 with
    | false => simp
    | true => simp [circle_not_poly q.2 hb]
  have hPmem : ∀ q ∈ (if (effPoints p).length > 0
      then [((n, polyObjOf p) : Nat × LObj)] else []),
      q.1 = n ∧ q.2 = polyObjOf p := by
    intro q hq
    by_cases hpt : (effPoints p).length > 0
    · rw [if_pos hpt] at hq
      rw [List.mem_singleton.mp hq]
      exact ⟨rfl, rfl⟩
    · rw [if_neg hpt] at hq
      exact absurd hq (List.not_mem_nil q)
  have hc1' : (((L.filter (fun q => !(isPolyB q.2))).map f ++
      (if (effPoints p).length > 0
       then [((n, polyObjOf p) : Nat × LObj)] else [])).filter
        (fun q => isCircleB q.2)).map Prod.fst = th := by
    rw [List.filter_append]
    have h2 : ((if (effPoints p).length > 0
        then [((n, polyObjOf p) : Nat × LObj)] else []).filter
          (fun q => isCircleB q.2)) = [] := by
      rw [List.filter_eq_nil_iff]
      intro q hq
      rw [(hPmem q hq).2]
      simp [polyObjOf, isCircleB]
    have h4 : ((L.filter (fun q => !(isPolyB q.2))).map f).filter
        (fun q => isCircleB q.2) =
        (L.filter (fun q => !(isPolyB q.2))).filter
          (fun q => isCircleB q.2) :=
      map_moveFn_filter_nonmarker hm p.center isCircleB updatePos_isCircle
        circle_not_marker _
    rw [h2, h4, h3, List.append_nil]
    exact hc1
  have hc2' : ∀ q ∈ (L.filter (fun q => !(isPolyB q.2))).map f ++
      (if (effPoints p).length > 0
       then [((n, polyObjOf p) : Nat × LObj)] else []),
      q.1 ∈ th → isCircleB q.2 = true := by
    intro q hq hmem
    rcases List.mem_append.mp hq with hq' | hqP
    · obtain ⟨q0, hq0, hfq⟩ := List.mem_map.mp hq'
      have hq0L : q0 ∈ L := (List.mem_filter.mp hq0).1
      have he1 : q.1 = q0.1 := by rw [← hfq, hfdef]; exact moveFn_fst hm _ q0
      have he3 : isCircleB q.2 = isCircleB q0.2 := by
        rw [← hfq, hfdef]
        exact moveFn_kind isCircleB updatePos_isCircle hm _ q0
      rw [he3]
      exact hc2 q0 hq0L (by rw [← he1]; exact hmem)
    · rw [(hPmem q hqP).1] at hmem
      have := hthb n hmem
      omega
  rw [threatStep_spec' p (some hm)
    (if (effPoints p).length > 0 then some n else rt) th
    (n + (if (effPoints p).length > 0 then 1 else 0))
    ((L.filter (fun q => !(isPolyB q.2))).map f ++
      (if (effPoints p).length > 0
       then [((n, polyObjOf p) : Nat × LObj)] else []))
    hc1' hc2']
  rw [Prod.mk.injEq]
  refine ⟨rfl, ?_⟩
  rw [MapSt.mk.injEq]
  refine ⟨rfl, ?_⟩
  rw [List.filter_append]
  have hfc2 : ((L.filter (fun q => !(isPolyB q.2))).map f).filter
      (fun q => !(isCircleB q.2)) =
      ((L.filter (fun q => !(isPolyB q.2))).filter
        (fun q => !(isCircleB q.2))).map f :=
    map_moveFn_filter hm p.center (fun o => !(isCircleB o))
      (fun o c => by simp [updatePos_isCircle]) _
  rw [hfc2, filter_not_poly_not_circle, hL]
  have hone : ([((hm, mo) : Nat × LObj)]).map f =
      [(hm, updatePos mo p.center)] := by
    rw [hfdef]
    simp
  rw [hone]
  have hPc : ((if (effPoints p).length > 0
      then [((n, polyObjOf p) : Nat × LObj)] else []).filter
        (fun q => !(isCircleB q.2))) =
      (if (effPoints p).length > 0
       then [((n, polyObjOf p) : Nat × LObj)] else []) := by
    rw [List.filter_eq_self]
    intro q hq
    rw [(hPmem q hq).2]
    simp [polyObjOf, isCircleB]
  rw [hPc]

/-- A built batch has one layer per zone. -/
theorem pairLayersFrom_length (f : ζ → LObj) :
    ∀ (zs : List ζ) (n : Nat), (pairLayersFrom f n zs).length = zs.length := by
  intro zs
  induction zs with
  | nil => intro n; rfl
  | cons z zs ih =>
    intro n
    show (pairLayersFrom f (n + 1) zs).length + 1 = zs.length + 1
    rw [ih (n + 1)]

/-- Kind filters of the canonical layer list: the marker, the optional
route line, and the circle batch separate cleanly. -/
theorem canonical_filters (mId : Nat) (mobj : LObj)
    (hmo : isMarkerB mobj = true) (p : Props) (N M : Nat) :
    (([(mId, mobj)] ++
      (if (effPoints p).length > 0 then [((N, polyObjOf p) : Nat × LObj)]
       else []) ++
      (if p.showThreats then pairLayersFrom circleOf M p.threatZones
       else [])).filter (fun q => isMarkerB q.2) = [(mId, mobj)]) ∧
    (([(mId, mobj)] ++
      (if (effPoints p).length > 0 then [((N, polyObjOf p) : Nat × LObj)]
       else []) ++
      (if p.showThreats then pairLayersFrom circleOf M p.threatZones
       else [])).filter (fun q => isPolyB q.2) =
      (if (effPoints p).length > 0 then [((N, polyObjOf p) : Nat × LObj)]
       else [])) ∧
    (([(mId, mobj)] ++
      (if (effPoints p).length > 0 then [((N, polyObjOf p) : Nat × LObj)]
       else []) ++
      (if p.showThreats then pairLayersFrom circleOf M p.threatZones
       else [])).filter (fun q => isCircleB q.2) =
      (if p.showThreats then pairLayersFrom circleOf M p.threatZones
       else [])) := by
  have hPm : ((if (effPoints p).length > 0
      then [((N, polyObjOf p) : Nat × LObj)] else []).filter
        (fun q => isMarkerB q.2)) = [] := by
    by_cases hpt : (effPoints p).length > 0 <;> simp [hpt, polyObjOf, isMarkerB]
  have hPp : ((if (effPoints p).length > 0
      then [((N, polyObjOf p) : Nat × LObj)] else []).filter
        (fun q => isPolyB q.2)) =
      (if (effPoints p).length > 0 then [((N, polyObjOf p) : Nat × LObj)]
       else []) := by
    by_cases hpt : (effPoints p).length > 0 <;> simp [hpt, polyObjOf, isPolyB]
  have hPc : ((if (effPoints p).length > 0
      then [((N, polyObjOf p) : Nat × LObj)] else []).filter
        (fun q => isCircleB q.2)) = [] := by
    by_cases hpt : (effPoints p).length > 0 <;> simp [hpt, polyObjOf, isCircleB]
  have hCm : ((if p.showThreats
      then pairLayersFrom circleOf M p.threatZones else []).filter
        (fun q => isMarkerB q.2)) = [] := by
    by_cases hsh : p.showThreats <;>
      simp [hsh, pairLayersFrom_filter_false circleOf isMarkerB
        circleOf_not_marker]
  have hCp : ((if p.showThreats
      then pairLayersFrom circleOf M p.threatZones else []).filter
        (fun q => isPolyB q.2)) = [] := by
    by_cases hsh : p.showThreats <;>
      simp [hsh, pairLayersFrom_filter_false circleOf isPolyB
        circleOf_not_poly]
  have hCc : ((if p.showThreats
      then pairLayersFrom circleOf M p.threatZones else []).filter
        (fun q => isCircleB q.2)) =
      (if p.showThreats then pairLayersFrom circleOf M p.threatZones
       else []) := by
    by_cases hsh : p.showThreats <;>
      simp [hsh, pairLayersFrom_filter_true circleOf isCircleB
        (fun z => circleOf_isCircle z)]
  refine ⟨?_, ?_, ?_⟩
  · rw [List.filter_append, List.filter_append,
      List.filter_cons_of_pos (by simpa using hmo), List.filter_nil,
      hPm, hCm, List.append_nil, List.append_nil]
  · rw [List.filter_append, List.filter_append,
      List.filter_cons_of_neg (by simp [marker_not_poly mobj hmo]),
      List.filter_nil, hPp, hCp, List.append_nil, List.nil_append]
  · rw [List.filter_append, List.filter_append,
      List.filter_cons_of_neg (by simp [marker_not_circle mobj hmo]),
      List.filter_nil, hPc, hCc, List.nil_append, List.nil_append]

/-- Objects of the canonical layer list. -/
theorem canonical_map_snd (mId : Nat) (mobj : LObj) (p : Props) (N M : Nat) :
    (([(mId, mobj)] ++
      (if (effPoints p).length > 0 then [((N, polyObjOf p) : Nat × LObj)]
       else []) ++
      (if p.showThreats then pairLayersFrom circleOf M p.threatZones
       else [])).map Prod.snd) =
      [mobj] ++ (if (effPoints p).length > 0 then [polyObjOf p] else []) ++
        (if p.showThreats then p.threatZones.map circleOf else []) := by
  rw [List.map_append, List.map_append]
  have h1 : ((if (effPoints p).length > 0
      then [((N, polyObjOf p) : Nat × LObj)] else []).map Prod.snd) =
      (if (effPoints p).length > 0 then [polyObjOf p] else []) := by
    by_cases hpt : (effPoints p).length > 0 <;> simp [hpt]
  have h2 : ((if p.showThreats
      then pairLayersFrom circleOf M p.threatZones else []).map Prod.snd) =
      (if p.showThreats then p.threatZones.map circleOf else []) := by
    by_cases hsh : p.showThreats <;> simp [hsh, pairLayersFrom_map_snd]
  rw [h1, h2]
  rfl

/-- The empty view satisfies the reconciler invariant. -/
theorem Inv_empty : Inv emptyRefs emptyMapSt := by
  refine ⟨List.nodup_nil, ?_, rfl, ?_, ?_, ?_, rfl, ?_⟩ <;>
    intro q hq <;> first
    | exact absurd hq (List.not_mem_nil q)
    | exact absurd (show (none : Option Nat) = some q from hq) (by simp)

/-- One reconciliation preserves the reconciler invariant. -/
theorem mapComponentUpdate_Inv (p : Props) (r : Refs) (s : MapSt)
    (hInv : Inv r s) :
    Inv (mapComponentUpdate p (r, s)).1 (mapComponentUpdate p (r, s)).2 := by
  have hrtbound := hInv.2.2.2.2.2.1
  cases hum : r.userMarker with
  | none =>
    rw [mapComponentUpdate_none p r s hInv hum]
    exact Inv_output p s.nextId (LObj.marker p.center p.isDistress) rfl
      r.routeLayer (s.nextId + 1) (by omega)
      (fun h hh => by have := hrtbound h hh; omega)
      (fun h hh => by have := hrtbound h hh; omega)
  | some hm =>
    obtain ⟨mo, hL, hmo, heq⟩ := mapComponentUpdate_some p r s hInv hm hum
    have hmoL : (hm, mo) ∈ s.layers := by
      have : ((hm, mo) : Nat × LObj) ∈
          s.layers.filter (fun q => isMarkerB q.2) := by
        rw [hL]
        exact List.mem_singleton.mpr rfl
      exact (List.mem_filter.mp this).1
    have hmN : hm < s.nextId := hInv.2.1 (hm, mo) hmoL
    rw [heq]
    refine Inv_output p hm (updatePos mo p.center)
      (by rw [updatePos_isMarker]; exact hmo) r.routeLayer s.nextId hmN
      (fun h hh => hrtbound h hh) ?_
    intro h hh heqm
    have := hInv.2.2.2.2.1 (hm, mo) hmoL (by rw [hh, heqm])
    rw [marker_not_poly mo hmo] at this
    exact absurd this (by simp)

/-- Shape of the layer list after one reconciliation: one marker, the
optional fresh route line (with a handle at or above the previous
allocator, hence distinct from every previous handle), and the optional
circle batch. -/
theorem mapComponentUpdate_layers (p : Props) (r : Refs) (s : MapSt)
    (hInv : Inv r s) :
    ∃ (mId : Nat) (mobj : LObj) (N M : Nat),
      isMarkerB mobj = true ∧ s.nextId ≤ N ∧
      (mapComponentUpdate p (r, s)).2.layers =
        [(mId, mobj)] ++
        (if (effPoints p).length > 0
         then [((N, polyObjOf p) : Nat × LObj)] else []) ++
        (if p.showThreats then pairLayersFrom circleOf M p.threatZones
         else []) := by
  cases hum : r.userMarker with
  | none =>
    refine ⟨s.nextId, LObj.marker p.center p.isDistress, s.nextId + 1,
      s.nextId + 1 + (if (effPoints p).length > 0 then 1 else 0),
      rfl, by omega, ?_⟩
    rw [mapComponentUpdate_none p r s hInv hum]
  | some hm =>
    obtain ⟨mo, hL, hmo, heq⟩ := mapComponentUpdate_some p r s hInv hm hum
    refine ⟨hm, updatePos mo p.center, s.nextId,
      s.nextId + (if (effPoints p).length > 0 then 1 else 0),
      by rw [updatePos_isMarker]; exact hmo, le_refl _, ?_⟩
    rw [heq]

/-- Total layer count decomposes into the three kind counts, for any map
state. -/
theorem layers_length_eq_counts (s : MapSt) :
    s.layers.length = countMarkers s + countPolys s + countCircles s := by
  show s.layers.length = _
  unfold countMarkers countPolys countCircles
  induction s.layers with
  | nil => rfl
  | cons q t ih =>
    rw [List.length_cons, ih]
    cases hq : q.2 with
    | marker a b =>
      rw [List.filter_cons_of_pos (by simp [hq, isMarkerB]),
        List.filter_cons_of_neg (by simp [hq, isPolyB]),
        List.filter_cons_of_neg (by simp [hq, isCircleB])]
      simp only [List.length_cons]
      omega
    | polyline a b c =>
      rw [List.filter_cons_of_neg (by simp [hq, isMarkerB]),
        List.filter_cons_of_pos (by simp [hq, isPolyB]),
        List.filter_cons_of_neg (by simp [hq, isCircleB])]
      simp only [List.length_cons]
      omega
    | circle a b c =>
      rw [List.filter_cons_of_neg (by simp [hq, isMarkerB]),
        List.filter_cons_of_neg (by simp [hq, isPolyB]),
        List.filter_cons_of_pos (by simp [hq, isCircleB])]
      simp only [List.length_cons]
      omega

/-- C10: the reconciler takes a `showThreats` toggle absent from the spec;
when it is false every existing hotspot overlay is removed and none is
created regardless of the zone set, and when it is true exactly one
overlay per zone exists — the per-zone overlay count holds only under
`showThreats = true`. -/
theorem C10_show_threats_gates_overlays (p : Props) (r : Refs) (s : MapSt)
    (hInv : Inv r s) :
    countCircles (mapComponentUpdate p (r, s)).2 =
      (if p.showThreats then p.threatZones.length else 0) ∧
    (p.showThreats = false →
      (mapComponentUpdate p (r, s)).2.layers.filter
        (fun q => isCircleB q.2) = []) := by
  obtain ⟨mId, mobj, N, M, hmo, _, hlay⟩ :=
    mapComponentUpdate_layers p r s hInv
  have hcf := (canonical_filters mId mobj hmo p N M).2.2
  constructor
  · show ((mapComponentUpdate p (r, s)).2.layers.filter
      (fun q => isCircleB q.2)).length = _
    rw [hlay, hcf]
    by_cases hsh : p.showThreats <;> simp [hsh, pairLayersFrom_length]
  · intro hsh
    rw [hlay, hcf, hsh]
    rfl

/-- Concrete instance for C10: a view holding one overlay, reconciled with
the toggle off and a non-empty zone set, ends with zero overlays. -/
theorem C10_show_threats_gates_overlays_witness :
    countCircles (mapComponentUpdate
      ⟨⟨1, 2⟩, none, [], [⟨"zt", 5, 6, 40, .Medium, "poor lighting"⟩],
        false, false⟩
      (⟨some 0, none, [1]⟩,
       ⟨2, [(0, LObj.marker ⟨1, 2⟩ false),
            (1, LObj.circle ⟨5, 6⟩ 40 "#f59e0b")]⟩)).2 = 0 ∧
    ([⟨"zt", 5, 6, 40, Intensity.Medium, "poor lighting"⟩] :
      List ThreatZone).length = 1 := by
  have hInv : Inv ⟨some 0, none, [1]⟩
      ⟨2, [(0, LObj.marker ⟨1, 2⟩ false),
           (1, LObj.circle ⟨5, 6⟩ 40 "#f59e0b")]⟩ := by
    refine ⟨?_, ?_, ?_, ?_, ?_, ?_, ?_, ?_⟩
    · decide
    · intro q hq
      rcases List.mem_cons.mp hq with h | h
      · rw [h]; decide
      · rw [List.mem_singleton.mp h]; decide
    · rfl
    · intro q hq hpoly
      rcases List.mem_cons.mp hq with h | h
      · rw [h] at hpoly; exact absurd hpoly (by decide)
      · rw [List.mem_singleton.mp h] at hpoly
        exact absurd hpoly (by decide)
    · intro q hq hrt
      exact absurd hrt (by simp)
    · intro h hh
      exact absurd hh (by simp)
    · rfl
    · intro q hq hmem
      rcases List.mem_cons.mp hq with h | h
      · rw [h] at hmem ⊢
        rcases List.mem_singleton.mp hmem
      · rw [List.mem_singleton.mp h]
        rfl
  have h := C10_show_threats_gates_overlays
    ⟨⟨1, 2⟩, none, [], [⟨"zt", 5, 6, 40, .Medium, "poor lighting"⟩],
      false, false⟩
    ⟨some 0, none, [1]⟩
    ⟨2, [(0, LObj.marker ⟨1, 2⟩ false),
         (1, LObj.circle ⟨5, 6⟩ 40 "#f59e0b")]⟩ hInv
  exact ⟨h.1, rfl⟩

/-- C6: on every reconciliation the route line is recreated from the
effective point sequence — the filtered polyline layers of the result are
exactly one fresh line built from `effPoints` (supplied route points if
non-empty, else `[center, destination]` when a destination is set, else
nothing), with a handle distinct from every previously allocated one. -/
theorem C6_route_from_effective_points (p : Props) (r : Refs) (s : MapSt)
    (hInv : Inv r s) :
    ∃ N, s.nextId ≤ N ∧
      (mapComponentUpdate p (r, s)).2.layers.filter
        (fun q => isPolyB q.2) =
        (if (effPoints p).length > 0
         then [((N, polyObjOf p) : Nat × LObj)] else []) := by
  obtain ⟨mId, mobj, N, M, hmo, hN, hlay⟩ :=
    mapComponentUpdate_layers p r s hInv
  refine ⟨N, hN, ?_⟩
  rw [hlay]
  exact (canonical_filters mId mobj hmo p N M).2.1

/-- Concrete instance for C6 — end-to-end scenario A: location
(40.7484, -74.0010), destination (40.7580, -73.9855), no route points
supplied; the reconciler draws exactly one 2-point line
[current, destination]. -/
theorem C6_route_from_effective_points_witness :
    ((mapComponentUpdate
        ⟨⟨40.7484, -74.0010⟩, some ⟨40.7580, -73.9855⟩, [], [], true, false⟩
        (emptyRefs, emptyMapSt)).2.layers.filter
      (fun q => isPolyB q.2)).map Prod.snd =
      [LObj.polyline [⟨40.7484, -74.0010⟩, ⟨40.7580, -73.9855⟩]
        "#ff007f" ""] := by
  obtain ⟨N, _, hpol⟩ := C6_route_from_effective_points
    ⟨⟨40.7484, -74.0010⟩, some ⟨40.7580, -73.9855⟩, [], [], true, false⟩
    emptyRefs emptyMapSt Inv_empty
  rw [hpol]
  rfl

/-- Marker-bearing view used for the C2 instances. -/
def sC2 : MapSt := ⟨1, [(0, LObj.marker ⟨1, 2⟩ false)]⟩

/-- Refs tracking the C2 marker. -/
def rC2 : Refs := ⟨some 0, none, []⟩

/-- The C2 view satisfies the reconciler invariant. -/
theorem InvC2 : Inv rC2 sC2 := by
  refine ⟨?_, ?_, rfl, ?_, ?_, ?_, rfl, ?_⟩
  · decide
  · intro q hq
    rw [List.mem_singleton.mp hq]
    decide
  · intro q hq hpoly
    rw [List.mem_singleton.mp hq] at hpoly
    exact absurd hpoly (by decide)
  · intro q hq hrt
    exact absurd hrt (by simp [rC2])
  · intro h hh
    exact absurd hh (by simp [rC2])
  · intro q hq hmem
    exact absurd hmem (by simp [rC2])

/-- C2 counterexample: reconciling an existing non-distress marker with the
distress flag turned on leaves the marker layer in its old (non-distress)
style — the claim that toggling the distress flag changes the marker
styling to the distress variant is false; only the route is restyled. -/
theorem C2_distress_marker_style_counterexample :
    ((mapComponentUpdate ⟨⟨1, 2⟩, none, [⟨1, 2⟩, ⟨3, 4⟩], [], true, true⟩
        (rC2, sC2)).2.layers.filter (fun q => isMarkerB q.2)) =
      [(0, LObj.marker ⟨1, 2⟩ false)] ∧
    LObj.marker ((⟨1, 2⟩ : Coord)) false ≠ LObj.marker ⟨1, 2⟩ true := by
  constructor
  · rfl
  · simp

/-- C2 amended: with an existing marker, toggling the distress flag and
reconciling changes the route styling to the distress variants without
changing the route geometry (both runs draw the effective points) or the
marker position (moved in place to the current center under either flag);
the existing marker keeps the icon style it was created with — its style
is NOT updated to the distress variant. -/
theorem C2_distress_restyles_route_not_marker (p : Props) (r : Refs)
    (s : MapSt) (hInv : Inv r s) (hm : Nat) (hum : r.userMarker = some hm) :
    ∃ mo, s.layers.filter (fun q => isMarkerB q.2) = [(hm, mo)] ∧
      (∀ b : Bool,
        (mapComponentUpdate { p with isDistress := b } (r, s)).2.layers.filter
          (fun q => isMarkerB q.2) = [(hm, updatePos mo p.center)]) ∧
      ((mapComponentUpdate { p with isDistress := true } (r, s)).2.layers.filter
          (fun q => isPolyB q.2) =
        (if (effPoints p).length > 0
         then [((s.nextId,
            LObj.polyline (effPoints p) "#ef4444" "1, 10") : Nat × LObj)]
         else [])) ∧
      ((mapComponentUpdate { p with isDistress := false } (r, s)).2.layers.filter
          (fun q => isPolyB q.2) =
        (if (effPoints p).length > 0
         then [((s.nextId,
            LObj.polyline (effPoints p) "#ff007f" "") : Nat × LObj)]
         else [])) := by
  obtain ⟨mo, hL, hmo, _⟩ :=
    mapComponentUpdate_some { p with isDistress := true } r s hInv hm hum
  refine ⟨mo, hL, ?_, ?_, ?_⟩
  · intro b
    obtain ⟨mo2, hL2, hmo2, heq⟩ :=
      mapComponentUpdate_some { p with isDistress := b } r s hInv hm hum
    have hmoeq : mo2 = mo := by
      rw [hL] at hL2
      simp at hL2
      exact hL2.symm
    rw [heq]
    have hcf := (canonical_filters hm
      (updatePos mo2 ({ p with isDistress := b } : Props).center)
      (by rw [updatePos_isMarker]; exact hmo2)
      { p with isDistress := b } s.nextId
      (s.nextId +
        (if (effPoints { p with isDistress := b }).length > 0
         then 1 else 0))).1
    rw [hcf, hmoeq]
  · obtain ⟨mo2, hL2, hmo2, heq⟩ :=
      mapComponentUpdate_some { p with isDistress := true } r s hInv hm hum
    rw [heq]
    exact (canonical_filters hm
      (updatePos mo2 ({ p with isDistress := true } : Props).center)
      (by rw [updatePos_isMarker]; exact hmo2)
      { p with isDistress := true } s.nextId
      (s.nextId +
        (if (effPoints { p with isDistress := true }).length > 0
         then 1 else 0))).2.1
  · obtain ⟨mo2, hL2, hmo2, heq⟩ :=
      mapComponentUpdate_some { p with isDistress := false } r s hInv hm hum
    rw [heq]
    exact (canonical_filters hm
      (updatePos mo2 ({ p with isDistress := false } : Props).center)
      (by rw [updatePos_isMarker]; exact hmo2)
      { p with isDistress := false } s.nextId
      (s.nextId +
        (if (effPoints { p with isDistress := false }).length > 0
         then 1 else 0))).2.1

/-- Concrete instance for C2 amended: under the distress flag the route is
drawn in the distress style over unchanged geometry while the marker keeps
its non-distress style. -/
theorem C2_distress_restyles_route_not_marker_witness :
    ((mapComponentUpdate ⟨⟨1, 2⟩, none, [⟨1, 2⟩, ⟨3, 4⟩], [], true, true⟩
        (rC2, sC2)).2.layers.filter (fun q => isMarkerB q.2)) =
      [(0, LObj.marker ⟨1, 2⟩ false)] ∧
    ((mapComponentUpdate ⟨⟨1, 2⟩, none, [⟨1, 2⟩, ⟨3, 4⟩], [], true, true⟩
        (rC2, sC2)).2.layers.filter (fun q => isPolyB q.2)) =
      [(1, LObj.polyline [⟨1, 2⟩, ⟨3, 4⟩] "#ef4444" "1, 10")] := by
  obtain ⟨mo, hL, hmk, hpT, hpF⟩ :=
    C2_distress_restyles_route_not_marker
      ⟨⟨1, 2⟩, none, [⟨1, 2⟩, ⟨3, 4⟩], [], true, false⟩ rC2 sC2 InvC2 0 rfl
  have hmo : mo = LObj.marker ⟨1, 2⟩ false := by
    have h0 : sC2.layers.filter (fun q => isMarkerB q.2) =
        [(0, LObj.marker ⟨1, 2⟩ false)] := rfl
    rw [h0] at hL
    simp at hL
    exact hL.symm
  subst hmo
  exact ⟨hmk true, hpT⟩

/-- Props for the C7 instance: threat display toggled off with one zone. -/
def pC7 : Props := ⟨⟨7, 8⟩, none, [], [⟨"za", 9, 10, 30, .High, "dark alley"⟩],
  false, false⟩

/-- C7 counterexample: with the threat toggle off and one ThreatZone,
running the reconciler twice produces zero overlays, not one per zone —
the unconditional per-zone overlay count in the claim is false. -/
theorem C7_overlay_count_counterexample :
    countCircles (mapComponentUpdate pC7
      (mapComponentUpdate pC7 (emptyRefs, emptyMapSt))).2 = 0 ∧
    pC7.threatZones.length = 1 := by
  exact ⟨rfl, rfl⟩

/-- C7 amended: running the reconciler twice with identical props produces
exactly one marker, one-or-zero route lines, and exactly one overlay per
ThreatZone when the threat toggle is on (zero when it is off); the second
run leaves the same visible layer objects as the first (idempotence), and
the live layers are exactly the marker, the optional line, and the
overlays — no duplicates and no leaked handles. -/
theorem C7_double_reconcile_idempotent (p : Props) (r : Refs) (s : MapSt)
    (hInv : Inv r s) :
    countMarkers (mapComponentUpdate p
      (mapComponentUpdate p (r, s))).2 = 1 ∧
    countPolys (mapComponentUpdate p
      (mapComponentUpdate p (r, s))).2 ≤ 1 ∧
    countCircles (mapComponentUpdate p
      (mapComponentUpdate p (r, s))).2 =
      (if p.showThreats then p.threatZones.length else 0) ∧
    (mapComponentUpdate p (mapComponentUpdate p (r, s))).2.layers.map
      Prod.snd = (mapComponentUpdate p (r, s)).2.layers.map Prod.snd ∧
    (mapComponentUpdate p (mapComponentUpdate p (r, s))).2.layers.length =
      countMarkers (mapComponentUpdate p
        (mapComponentUpdate p (r, s))).2 +
      countPolys (mapComponentUpdate p
        (mapComponentUpdate p (r, s))).2 +
      countCircles (mapComponentUpdate p
        (mapComponentUpdate p (r, s))).2 := by
  have hInv1 := mapComponentUpdate_Inv p r s hInv
  have hone : mapComponentUpdate p (mapComponentUpdate p (r, s)) =
      mapComponentUpdate p ((mapComponentUpdate p (r, s)).1,
        (mapComponentUpdate p (r, s)).2) := rfl
  obtain ⟨mId, mobj, N, M, hmo, _, hlay⟩ :=
    mapComponentUpdate_layers p (mapComponentUpdate p (r, s)).1
      (mapComponentUpdate p (r, s)).2 hInv1
  obtain ⟨hfm, hfp, hfc⟩ := canonical_filters mId mobj hmo p N M
  refine ⟨?_, ?_, ?_, ?_, layers_length_eq_counts _⟩
  · show ((mapComponentUpdate p (mapComponentUpdate p (r, s))).2.layers.filter
      (fun q => isMarkerB q.2)).length = 1
    rw [hone, hlay, hfm]
    rfl
  · show ((mapComponentUpdate p (mapComponentUpdate p (r, s))).2.layers.filter
      (fun q => isPolyB q.2)).length ≤ 1
    rw [hone, hlay, hfp]
    by_cases hpt : (effPoints p).length > 0 <;> simp [hpt]
  · show ((mapComponentUpdate p (mapComponentUpdate p (r, s))).2.layers.filter
      (fun q => isCircleB q.2)).length = _
    rw [hone, hlay, hfc]
    by_cases hsh : p.showThreats <;> simp [hsh, pairLayersFrom_length]
  · cases hum : r.userMarker with
    | none =>
      have e1 := mapComponentUpdate_none p r s hInv hum
      have hum1 : (mapComponentUpdate p (r, s)).1.userMarker =
          some s.nextId := by
        rw [e1]
      obtain ⟨mo2, hL2, hmo2, e2⟩ := mapComponentUpdate_some p
        (mapComponentUpdate p (r, s)).1 (mapComponentUpdate p (r, s)).2
        hInv1 s.nextId hum1
      have hfirst : (mapComponentUpdate p (r, s)).2.layers.filter
          (fun q => isMarkerB q.2) =
          [(s.nextId, LObj.marker p.center p.isDistress)] := by
        rw [e1]
        exact (canonical_filters s.nextId
          (LObj.marker p.center p.isDistress) rfl p (s.nextId + 1)
          (s.nextId + 1 +
            (if (effPoints p).length > 0 then 1 else 0))).1
      rw [hfirst] at hL2
      simp at hL2
      rw [hone, e2, canonical_map_snd, e1, canonical_map_snd]
      rw [← hL2]
      rfl
    | some hm =>
      obtain ⟨mo, hL, hmo1, e1⟩ := mapComponentUpdate_some p r s hInv hm hum
      have hum1 : (mapComponentUpdate p (r, s)).1.userMarker = some hm := by
        rw [e1]
      obtain ⟨mo2, hL2, hmo2, e2⟩ := mapComponentUpdate_some p
        (mapComponentUpdate p (r, s)).1 (mapComponentUpdate p (r, s)).2
        hInv1 hm hum1
      have hfirst : (mapComponentUpdate p (r, s)).2.layers.filter
          (fun q => isMarkerB q.2) = [(hm, updatePos mo p.center)] := by
        rw [e1]
        exact (canonical_filters hm (updatePos mo p.center)
          (by rw [updatePos_isMarker]; exact hmo1) p s.nextId
          (s.nextId +
            (if (effPoints p).length > 0 then 1 else 0))).1
      rw [hfirst] at hL2
      simp at hL2
      rw [hone, e2, canonical_map_snd, e1, canonical_map_snd]
      rw [← hL2, updatePos_idem]

/-- Concrete instance for C7 amended: from the empty view, two runs with
one Low zone and the toggle on give one marker, one line, one overlay, and
identical visible objects. -/
theorem C7_double_reconcile_idempotent_witness :
    countMarkers (mapComponentUpdate
      ⟨⟨1, 1⟩, some ⟨2, 2⟩, [], [⟨"zb", 3, 3, 25, .Low, "side street"⟩],
        true, false⟩
      (mapComponentUpdate
        ⟨⟨1, 1⟩, some ⟨2, 2⟩, [], [⟨"zb", 3, 3, 25, .Low, "side street"⟩],
          true, false⟩ (emptyRefs, emptyMapSt))).2 = 1 ∧
    countCircles (mapComponentUpdate
      ⟨⟨1, 1⟩, some ⟨2, 2⟩, [], [⟨"zb", 3, 3, 25, .Low, "side street"⟩],
        true, false⟩
      (mapComponentUpdate
        ⟨⟨1, 1⟩, some ⟨2, 2⟩, [], [⟨"zb", 3, 3, 25, .Low, "side street"⟩],
          true, false⟩ (emptyRefs, emptyMapSt))).2 = 1 ∧
    (mapComponentUpdate
      ⟨⟨1, 1⟩, some ⟨2, 2⟩, [], [⟨"zb", 3, 3, 25, .Low, "side street"⟩],
        true, false⟩
      (mapComponentUpdate
        ⟨⟨1, 1⟩, some ⟨2, 2⟩, [], [⟨"zb", 3, 3, 25, .Low, "side street"⟩],
          true, false⟩ (emptyRefs, emptyMapSt))).2.layers.map Prod.snd =
    (mapComponentUpdate
      ⟨⟨1, 1⟩, some ⟨2, 2⟩, [], [⟨"zb", 3, 3, 25, .Low, "side street"⟩],
        true, false⟩ (emptyRefs, emptyMapSt)).2.layers.map Prod.snd := by
  have h := C7_double_reconcile_idempotent
    ⟨⟨1, 1⟩, some ⟨2, 2⟩, [], [⟨"zb", 3, 3, 25, .Low, "side street"⟩],
      true, false⟩ emptyRefs emptyMapSt Inv_empty
  refine ⟨h.1, ?_, h.2.2.2.1⟩
  rw [h.2.2.1]
  rfl

/-! ## Vanilla updateMap model (src/unnamed/part_000, lines 260-295) -/

/-- Guarded removal (`if (h) map.removeLayer(h)`). -/
def removeOpt : Option Nat → MapSt → MapSt
  | none, s => s
  | some h, s => removeLayer h s

/-- A hotspot entry of the vanilla app state: its intensity is a raw
string. -/
structure VZone where
  lat : ℚ
  lng : ℚ
  radius : ℚ
  intensity : String
  deriving DecidableEq, Repr

/-- The slice of the vanilla app state that `updateMap` reads. -/
structure VState where
  currentLocation : Coord
  isSOSActive : Bool
  safeRoute : Option (List Coord)
  threatZones : List VZone

/-- The vanilla module-level handles: marker, route line, overlay list. -/
structure VRefs where
  userMarker : Option Nat
  routeLine : Option Nat
  threatOverlays : List Nat
  deriving DecidableEq, Repr

/-- Hotspot color in the vanilla `updateMap`: High gets "#ef4444" and
every other intensity string gets "#f59e0b". -/
def updateMapZoneColor (i : String) : String :=
  if i = "High" then "#ef4444" else "#f59e0b"

/-- The circle the vanilla `updateMap` creates for one hotspot. -/
def vCircleOf (z : VZone) : LObj :=
  .circle ⟨z.lat, z.lng⟩ z.radius (updateMapZoneColor z.intensity)

/-- The vanilla circle-creation loop: one circle per zone, each fresh
handle pushed onto the overlay list. -/
def vAddCircles (zs : List VZone) (rm : VRefs × MapSt) : VRefs × MapSt :=
  zs.foldl
    (fun a z =>
      let c := addLayer (vCircleOf z) a.2
      ({ a.1 with threatOverlays := a.1.threatOverlays ++ [c.1] }, c.2))
    rm

/-- The vanilla `updateMap`: remove the marker, the route line, and every
overlay, then recreate the marker, the line when a route is set (same
SOS-dependent color as the component, no dash), and one circle per
hotspot — unconditionally, with no show-threats gate. -/
def updateMap (st : VState) (rm : VRefs × MapSt) : VRefs × MapSt :=
  let r := rm.1
  let s := rm.2
  let s := removeOpt r.userMarker s
  let s := removeOpt r.routeLine s
  let s := removeAll r.threatOverlays s
  let r := { r with threatOverlays := ([] : List Nat) }
  let a := addLayer (LObj.marker st.currentLocation st.isSOSActive) s
  let r := { r with userMarker := some a.1 }
  let s := a.2
  match st.safeRoute with
  | some pts =>
    let b := addLayer (LObj.polyline pts (routeColor st.isSOSActive) "") s
    vAddCircles st.threatZones ({ r with routeLine := some b.1 }, b.2)
  | none => vAddCircles st.threatZones (r, s)

/-- A layer surviving a guarded removal was present before it. -/
theorem removeOpt_subset (o : Option Nat) (s : MapSt) :
    ∀ q ∈ (removeOpt o s).layers, q ∈ s.layers := by
  intro q hq
  cases o with
  | none => exact hq
  | some h => exact (List.mem_filter.mp hq).1

/-- The vanilla circle loop appends one fresh circle layer per zone and
pushes the fresh handles in order. -/
theorem vAddCircles_spec : ∀ (zs : List VZone) (r : VRefs) (s : MapSt),
    vAddCircles zs (r, s) =
      ({ r with
          threatOverlays := r.threatOverlays ++ idsFrom s.nextId zs.length },
       ⟨s.nextId + zs.length,
        s.layers ++ pairLayersFrom vCircleOf s.nextId zs⟩) := by
  intro zs
  induction zs with
  | nil =>
    intro r s
    show (r, s) = _
    simp [idsFrom, pairLayersFrom]
  | cons z zs ih =>
    intro r s
    have hstep : vAddCircles (z :: zs) (r, s) =
        vAddCircles zs
          ({ r with threatOverlays := r.threatOverlays ++ [s.nextId] },
           ⟨s.nextId + 1, s.layers ++ [(s.nextId, vCircleOf z)]⟩) := by
      simp [vAddCircles, addLayer]
    rw [hstep, ih]
    simp only [Prod.mk.injEq, VRefs.mk.injEq, MapSt.mk.injEq,
      List.length_cons, List.append_assoc, List.singleton_append]
    exact ⟨by simp [idsFrom], by omega, rfl⟩

/-- After the vanilla `updateMap`, the live circle layers are exactly one
circle per hotspot in state order, provided the overlay handle list
tracked exactly the previously live circles. -/
theorem updateMap_circles (st : VState) (vr : VRefs) (vs : MapSt)
    (hvc : (vs.layers.filter (fun q => isCircleB q.2)).map Prod.fst =
      vr.threatOverlays) :
    ((updateMap st (vr, vs)).2.layers.filter
        (fun q => isCircleB q.2)).map Prod.snd =
      st.threatZones.map vCircleOf := by
  have hno : ((removeAll vr.threatOverlays
      (removeOpt vr.routeLine (removeOpt vr.userMarker vs))).layers.filter
        (fun q => isCircleB q.2)) = [] := by
    rw [removeAll_spec, List.filter_eq_nil_iff]
    intro q hq hcirc
    obtain ⟨hq2, hnc⟩ := List.mem_filter.mp hq
    have hq3 : q ∈ vs.layers :=
      removeOpt_subset vr.userMarker vs q
        (removeOpt_subset vr.routeLine (removeOpt vr.userMarker vs) q hq2)
    have hmem : q ∈ vs.layers.filter (fun q => isCircleB q.2) :=
      List.mem_filter.mpr ⟨hq3, hcirc⟩
    have hin : q.1 ∈ vr.threatOverlays := by
      rw [← hvc]
      exact List.mem_map_of_mem Prod.fst hmem
    have hct : vr.threatOverlays.contains q.1 = true :=
      List.elem_eq_true_of_mem hin
    rw [hct] at hnc
    exact absurd hnc (by decide)
  obtain ⟨cl, sos, sr, zs⟩ := st
  cases sr with
  | none =>
    have hu : updateMap ⟨cl, sos, none, zs⟩ (vr, vs) =
        vAddCircles zs
          ({ vr with
              userMarker := some (removeAll vr.threatOverlays
                (removeOpt vr.routeLine (removeOpt vr.userMarker vs))).nextId,
              threatOverlays := ([] : List Nat) },
           ⟨(removeAll vr.threatOverlays
              (removeOpt vr.routeLine (removeOpt vr.userMarker vs))).nextId + 1,
            (removeAll vr.threatOverlays
              (removeOpt vr.routeLine (removeOpt vr.userMarker vs))).layers ++
              [((removeAll vr.threatOverlays
                  (removeOpt vr.routeLine (removeOpt vr.userMarker vs))).nextId,
                LObj.marker cl sos)]⟩) := rfl
    rw [hu, vAddCircles_spec]
    show (((removeAll vr.threatOverlays
        (removeOpt vr.routeLine (removeOpt vr.userMarker vs))).layers ++
        [((removeAll vr.threatOverlays
            (removeOpt vr.routeLine (removeOpt vr.userMarker vs))).nextId,
          LObj.marker cl sos)] ++
        pairLayersFrom vCircleOf ((removeAll vr.threatOverlays
          (removeOpt vr.routeLine (removeOpt vr.userMarker vs))).nextId + 1)
          zs).filter (fun q => isCircleB q.2)).map Prod.snd = zs.map vCircleOf
    rw [List.filter_append, List.filter_append, hno,
      pairLayersFrom_filter_true vCircleOf isCircleB (fun z => rfl)]
    have hm : List.filter (fun q => isCircleB q.2)
        [((removeAll vr.threatOverlays
            (removeOpt vr.routeLine (removeOpt vr.userMarker vs))).nextId,
          LObj.marker cl sos)] = [] := by
      simp [isCircleB]
    rw [hm]
    simp [pairLayersFrom_map_snd]
  | some pts =>
    have hu : updateMap ⟨cl, sos, some pts, zs⟩ (vr, vs) =
        vAddCircles zs
          ({ vr with
              userMarker := some (removeAll vr.threatOverlays
                (removeOpt vr.routeLine (removeOpt vr.userMarker vs))).nextId,
              routeLine := some ((removeAll vr.threatOverlays
                (removeOpt vr.routeLine (removeOpt vr.userMarker vs))).nextId + 1),
              threatOverlays := ([] : List Nat) },
           ⟨(removeAll vr.threatOverlays
              (removeOpt vr.routeLine (removeOpt vr.userMarker vs))).nextId + 1 + 1,
            ((removeAll vr.threatOverlays
              (removeOpt vr.routeLine (removeOpt vr.userMarker vs))).layers ++
              [((removeAll vr.threatOverlays
                  (removeOpt vr.routeLine (removeOpt vr.userMarker vs))).nextId,
                LObj.marker cl sos)]) ++
              [((removeAll vr.threatOverlays
                  (removeOpt vr.routeLine (removeOpt vr.userMarker vs))).nextId + 1,
                LObj.polyline pts (routeColor sos) "")]⟩) := rfl
    rw [hu, vAddCircles_spec]
    show ((((removeAll vr.threatOverlays
        (removeOpt vr.routeLine (removeOpt vr.userMarker vs))).layers ++
        [((removeAll vr.threatOverlays
            (removeOpt vr.routeLine (removeOpt vr.userMarker vs))).nextId,
          LObj.marker cl sos)] ++
        [((removeAll vr.threatOverlays
            (removeOpt vr.routeLine (removeOpt vr.userMarker vs))).nextId + 1,
          LObj.polyline pts (routeColor sos) "")]) ++
        pairLayersFrom vCircleOf ((removeAll vr.threatOverlays
          (removeOpt vr.routeLine (removeOpt vr.userMarker vs))).nextId + 1 + 1)
          zs).filter (fun q => isCircleB q.2)).map Prod.snd = zs.map vCircleOf
    rw [List.filter_append, List.filter_append, List.filter_append, hno,
      pairLayersFrom_filter_true vCircleOf isCircleB (fun z => rfl)]
    have hm : List.filter (fun q => isCircleB q.2)
        [((removeAll vr.threatOverlays
            (removeOpt vr.routeLine (removeOpt vr.userMarker vs))).nextId,
          LObj.marker cl sos)] = [] := by
      simp [isCircleB]
    have hp : List.filter (fun q => isCircleB q.2)
        [((removeAll vr.threatOverlays
            (removeOpt vr.routeLine (removeOpt vr.userMarker vs))).nextId + 1,
          LObj.polyline pts (routeColor sos) "")] = [] := by
      simp [isCircleB]
    rw [hm, hp]
    simp [pairLayersFrom_map_snd]

/-- C8 counterexample: the vanilla `updateMap` maps the Medium and Low
intensity tiers to the same color — the three tiers are not pairwise
distinct there — and the `MapComponent` reconciliation with the threat
toggle off recreates no overlay at all for its one ThreatZone. -/
theorem C8_zone_overlay_counterexample :
    updateMapZoneColor "Medium" = updateMapZoneColor "Low" ∧
    countCircles (mapComponentUpdate
      ⟨⟨5, 6⟩, none, [], [⟨"zc", 7, 7, 40, .Medium, "market"⟩], false,
        false⟩ (emptyRefs, emptyMapSt)).2 = 0 := by
  exact ⟨rfl, rfl⟩

/-- C8 amended: when the threat toggle is on, one `MapComponent`
reconciliation leaves exactly one circle per ThreatZone (in order,
centered at the zone coordinate, sized to its radius, colored by tier)
and none when the toggle is off; the `MapComponent` tier colors are
pairwise distinct. The vanilla `updateMap` removes every tracked overlay
and recreates one circle per zone unconditionally, but colors Medium and
Low identically ("#f59e0b"): only High gets a distinct color there. -/
theorem C8_zone_overlay_colors (p : Props) (r : Refs) (s : MapSt)
    (hInv : Inv r s) (st : VState) (vr : VRefs) (vs : MapSt)
    (hvc : (vs.layers.filter (fun q => isCircleB q.2)).map Prod.fst =
      vr.threatOverlays) :
    (((mapComponentUpdate p (r, s)).2.layers.filter
        (fun q => isCircleB q.2)).map Prod.snd =
      (if p.showThreats then p.threatZones.map circleOf else [])) ∧
    (zoneColor .High ≠ zoneColor .Medium ∧ zoneColor .High ≠ zoneColor .Low ∧
      zoneColor .Medium ≠ zoneColor .Low) ∧
    (((updateMap st (vr, vs)).2.layers.filter
        (fun q => isCircleB q.2)).map Prod.snd =
      st.threatZones.map vCircleOf) ∧
    updateMapZoneColor "Medium" = "#f59e0b" ∧
    updateMapZoneColor "Low" = "#f59e0b" := by
  refine ⟨?_, by refine ⟨?_, ?_, ?_⟩ <;> decide,
    updateMap_circles st vr vs hvc, rfl, rfl⟩
  obtain ⟨mId, mobj, N, M, hmo, _, hlay⟩ := mapComponentUpdate_layers p r s hInv
  rw [hlay, (canonical_filters mId mobj hmo p N M).2.2]
  by_cases hsh : p.showThreats
  · simp [hsh, pairLayersFrom_map_snd]
  · simp [hsh]

/-- Props for the C8 instance: three zones, one per tier, toggle on. -/
def pW8 : Props := ⟨⟨1, 2⟩, none, [],
  [⟨"zH", 1, 1, 10, .High, "alley"⟩, ⟨"zM", 2, 2, 10, .Medium, "lot"⟩,
   ⟨"zL", 3, 3, 10, .Low, "park"⟩], true, false⟩

/-- Vanilla state for the C8 instance: a Medium and a Low hotspot. -/
def stW8 : VState := ⟨⟨0, 0⟩, false, none,
  [⟨4, 4, 12, "Medium"⟩, ⟨5, 5, 12, "Low"⟩]⟩

/-- Concrete instance for C8 amended: the component draws three distinct
tier colors; the vanilla map draws its Medium and Low zones in the same
color. -/
theorem C8_zone_overlay_colors_witness :
    ((mapComponentUpdate pW8 (emptyRefs, emptyMapSt)).2.layers.filter
        (fun q => isCircleB q.2)).map Prod.snd =
      [LObj.circle ⟨1, 1⟩ 10 "#ef4444", LObj.circle ⟨2, 2⟩ 10 "#f59e0b",
       LObj.circle ⟨3, 3⟩ 10 "#3b82f6"] ∧
    ((updateMap stW8 (⟨none, none, []⟩, emptyMapSt)).2.layers.filter
        (fun q => isCircleB q.2)).map Prod.snd =
      [LObj.circle ⟨4, 4⟩ 12 "#f59e0b", LObj.circle ⟨5, 5⟩ 12 "#f59e0b"] := by
  have h := C8_zone_overlay_colors pW8 emptyRefs emptyMapSt Inv_empty
    stW8 ⟨none, none, []⟩ emptyMapSt rfl
  exact ⟨h.1.trans rfl, h.2.2.1.trans rfl⟩

end SafeRoute
